import Mathlib

/-!
Verification of the room-synchronization server of the Real-Time-Code-Editor
repository (backend/index.js).  The server state (the process-wide `rooms`
map and the per-socket `socket.data` fields) and every socket event handler
are embedded as executable Lean functions; socket.io's room-based delivery
(`io.to(room).emit`, `socket.to(room).emit`) is modelled by computing, at the
moment of each emit, the list of connected sockets whose socket.io room set
contains the target room.  Timers (`setTimeout`/`clearTimeout`) are modelled
by an armed-timer field carrying the roomId captured by the timer closure,
with an explicit `timerFire` event for the moment the timeout elapses.
-/

set_option maxHeartbeats 1000000

namespace RTCE

abbrev ConnId := Nat

/-- A JavaScript value as far as the handlers' type checks observe it:
a string, `undefined` (also covering absent fields), or any other
non-string value. -/
inductive JVal where
  | str (s : String)
  | undef
  | other
  deriving DecidableEq

/-- The per-socket state `socket.data` (plus the transport-level facts the
model needs: whether the socket is still connected and which socket.io rooms
it is currently in).  `debounceTimer = some r` models an armed debounce
timeout whose closure captured roomId `r`. -/
structure ConnState where
  currentRoom : Option String
  userName : Option String
  pendingCode : Option String
  debounceTimer : Option String
  connected : Bool
  ioRooms : List String
  deriving DecidableEq

/-- A server-to-client message, as emitted by the handlers. -/
inductive Msg where
  | userJoined (names : List String)
  | codeUpdate (code : Option String)
  | userTyping (name : JVal)
  | languageUpdate (lang : String)
  | error (message : String)
  deriving DecidableEq

/-- The whole server state: the process-wide `rooms` map (room id to the
insertion-ordered participant-name set) and the per-socket states. -/
structure ServerState where
  rooms : List (String × List String)
  conns : List (ConnId × ConnState)
  deriving DecidableEq

/-- Association-list lookup (JS `Map.get` / `Map.has`). -/
def alookup {α β : Type} [DecidableEq α] : List (α × β) → α → Option β
  | [], _ => none
  | (k, v) :: t, r => if k = r then some v else alookup t r

/-- Remove a key (JS `Map.delete`). -/
def aremove {α β : Type} [DecidableEq α] : List (α × β) → α → List (α × β)
  | [], _ => []
  | (k, v) :: t, r => if k = r then aremove t r else (k, v) :: aremove t r

/-- Set a key (JS `Map.set`). -/
def aset {α β : Type} [DecidableEq α] (l : List (α × β)) (k : α) (v : β) :
    List (α × β) :=
  (k, v) :: aremove l k

/-- Apply `f` to the state of connection `c`, leaving every other entry
(and the entry order) unchanged. -/
def updateConn : List (ConnId × ConnState) → ConnId → (ConnState → ConnState) →
    List (ConnId × ConnState)
  | [], _, _ => []
  | (k, v) :: t, c, f =>
    if k = c then (k, f v) :: updateConn t c f else (k, v) :: updateConn t c f

/-- Register connection `c` with state `v` (transport connect). -/
def setConn (l : List (ConnId × ConnState)) (c : ConnId) (v : ConnState) :
    List (ConnId × ConnState) :=
  if (alookup l c).isSome then updateConn l c (fun _ => v) else l ++ [(c, v)]

/-- JS `Set.add`: append unless already present (insertion order kept). -/
def addName (l : List String) (n : String) : List String :=
  if n ∈ l then l else l ++ [n]

/-- JS `Set.delete`: remove the (unique) occurrence of `n`. -/
def removeName : List String → String → List String
  | [], _ => []
  | x :: t, n => if x = n then t else x :: removeName t n

/-- The connected sockets currently in socket.io room `r`, in connection
order: the recipients of `io.to(r).emit`. -/
def roomRecipients (conns : List (ConnId × ConnState)) (r : String) : List ConnId :=
  (conns.filter (fun p => p.2.connected && decide (r ∈ p.2.ioRooms))).map Prod.fst

/-- `io.to(r).emit(m)`: deliver `m` to every connected socket in room `r`
(no sender exclusion). -/
def emitToRoom (conns : List (ConnId × ConnState)) (r : String) (m : Msg) :
    List (ConnId × Msg) :=
  (roomRecipients conns r).map (fun d => (d, m))

/-- `socket.to(r).emit(m)`: deliver `m` to every connected socket in room
`r` except the sender. -/
def emitToRoomExcept (conns : List (ConnId × ConnState)) (r : String) (sender : ConnId)
    (m : Msg) : List (ConnId × Msg) :=
  ((roomRecipients conns r).filter (fun d => decide (d ≠ sender))).map (fun d => (d, m))

/-- Whether a string is empty (JS falsiness of a string). -/
def strEmpty (s : String) : Bool := s.data.isEmpty

/-- Whether `s.trim()` is non-empty, i.e. `s` has a non-whitespace
character.  (The handlers only ever test emptiness of the trimmed string;
the trimmed string itself is never stored.) -/
def trimNonempty (s : String) : Bool := s.data.any (fun ch => !ch.isWhitespace)

/-- JS truthiness of a nullable string field (`null` and `""` are falsy). -/
def truthy : Option String → Bool
  | some s => !strEmpty s
  | none => false

/-- The join-handler guard `typeof x === "string" && x.trim()`. -/
def validStr : JVal → Bool
  | JVal.str s => trimNonempty s
  | _ => false

/-- Fresh per-socket state set up in the `connection` handler. -/
def initConn : ConnState :=
  { currentRoom := none, userName := none, pendingCode := none,
    debounceTimer := none, connected := true, ioRooms := [] }

/-- `safeLeaveRoom(roomId, userName)`: remove the name from the room's set,
delete the room if it became empty, and emit the updated member list to
`io.to(roomId)` (empty array if the room was removed).  Mirrors the guard
`if (!roomId || !rooms.has(roomId)) return;`. -/
def safeLeaveRoom (s : ServerState) (roomId : Option String) (userName : Option String) :
    ServerState × List (ConnId × Msg) :=
  match roomId with
  | none => (s, [])
  | some r =>
    if strEmpty r then (s, [])
    else
      match alookup s.rooms r with
      | none => (s, [])
      | some names =>
        let names' : List String :=
          match userName with
          | some u => removeName names u
          | none => names
        let rooms' := if names' = [] then aremove s.rooms r else aset s.rooms r names'
        ({ s with rooms := rooms' }, emitToRoom s.conns r (Msg.userJoined names'))

/-- The `join` handler. -/
def handleJoin (s : ServerState) (c : ConnId) (roomId userName : JVal) :
    ServerState × List (ConnId × Msg) :=
  match alookup s.conns c with
  | none => (s, [])
  | some st =>
    match roomId with
    | JVal.str rid =>
      if !trimNonempty rid then (s, [(c, Msg.error "Invalid or missing roomId in join")])
      else
        match userName with
        | JVal.str uname =>
          if !trimNonempty uname then
            (s, [(c, Msg.error "Invalid or missing userName in join")])
          else
            -- If already in a room, leave it first (then socket.leave(old))
            let step1 : ServerState × List (ConnId × Msg) :=
              if truthy st.currentRoom then
                let old := st.currentRoom.getD ""
                let sa := safeLeaveRoom s st.currentRoom st.userName
                ({ sa.1 with conns := (updateConn sa.1.conns c
                    (fun cs => { cs with ioRooms := removeName cs.ioRooms old })) },
                 sa.2)
              else (s, [])
            -- socket.join(roomId); socket.data.currentRoom/userName := payload
            let s2 : ServerState :=
              { step1.1 with conns := (updateConn step1.1.conns c (fun cs =>
                  { cs with ioRooms := addName cs.ioRooms rid,
                            currentRoom := some rid, userName := some uname })) }
            -- rooms.set if absent; rooms.get(roomId).add(userName)
            let roster := addName ((alookup s2.rooms rid).getD []) uname
            let s3 : ServerState := { s2 with rooms := aset s2.rooms rid roster }
            (s3, step1.2 ++ emitToRoom s3.conns rid (Msg.userJoined roster))
        | _ => (s, [(c, Msg.error "Invalid or missing userName in join")])
    | _ => (s, [(c, Msg.error "Invalid or missing roomId in join")])

/-- The `codeChange` handler: validate, check membership, store the pending
code and (re)arm the debounce timer capturing `roomId`. -/
def handleCodeChange (s : ServerState) (c : ConnId) (roomId code : JVal) :
    ServerState × List (ConnId × Msg) :=
  match alookup s.conns c with
  | none => (s, [])
  | some st =>
    match roomId with
    | JVal.str r =>
      if strEmpty r then (s, [])
      else
        match code with
        | JVal.str cd =>
          if st.currentRoom = some r then
            ({ s with conns := (updateConn s.conns c (fun cs =>
                { cs with pendingCode := some cd, debounceTimer := some r })) }, [])
          else (s, [])
        | _ => (s, [])
    | _ => (s, [])

/-- The debounce timeout elapsing for connection `c`: emit the pending code
to `socket.to(capturedRoom)` and clear the pending slot and timer handle.
A no-op when no timer is armed (a cleared timeout never fires). -/
def handleTimerFire (s : ServerState) (c : ConnId) :
    ServerState × List (ConnId × Msg) :=
  match alookup s.conns c with
  | none => (s, [])
  | some st =>
    match st.debounceTimer with
    | none => (s, [])
    | some r =>
      ({ s with conns := (updateConn s.conns c (fun cs =>
          { cs with pendingCode := none, debounceTimer := none })) },
       emitToRoomExcept s.conns r c (Msg.codeUpdate st.pendingCode))

/-- The `leaveRoom` handler. -/
def handleLeaveRoom (s : ServerState) (c : ConnId) :
    ServerState × List (ConnId × Msg) :=
  match alookup s.conns c with
  | none => (s, [])
  | some st =>
    let step1 : ServerState × List (ConnId × Msg) :=
      if truthy st.currentRoom && truthy st.userName then
        let old := st.currentRoom.getD ""
        let sa := safeLeaveRoom s st.currentRoom st.userName
        ({ sa.1 with conns := (updateConn sa.1.conns c
            (fun cs => { cs with ioRooms := removeName cs.ioRooms old })) },
         sa.2)
      else (s, [])
    ({ step1.1 with conns := (updateConn step1.1.conns c
        (fun cs => { cs with currentRoom := none, userName := none })) },
     step1.2)

/-- The `typing` handler: no validation at all, straight
`socket.to(roomId).emit("userTyping", userName)`.  A non-string room value
names no socket.io room, so delivery reaches nobody. -/
def handleTyping (s : ServerState) (c : ConnId) (roomId userName : JVal) :
    ServerState × List (ConnId × Msg) :=
  match alookup s.conns c with
  | none => (s, [])
  | some _ =>
    match roomId with
    | JVal.str r => (s, emitToRoomExcept s.conns r c (Msg.userTyping userName))
    | _ => (s, [])

/-- The `languageChange` handler: type-checks both fields, then
`io.to(roomId).emit("languageUpdate", language)` (sender included). -/
def handleLanguageChange (s : ServerState) (c : ConnId) (roomId language : JVal) :
    ServerState × List (ConnId × Msg) :=
  match alookup s.conns c with
  | none => (s, [])
  | some _ =>
    match roomId, language with
    | JVal.str r, JVal.str lg => (s, emitToRoom s.conns r (Msg.languageUpdate lg))
    | _, _ => (s, [])

/-- The `disconnect` handler.  socket.io removes the socket from all its
rooms before the `disconnect` event fires, so the roster broadcast inside
`safeLeaveRoom` can no longer reach the departing socket. -/
def handleDisconnect (s : ServerState) (c : ConnId) :
    ServerState × List (ConnId × Msg) :=
  match alookup s.conns c with
  | none => (s, [])
  | some st =>
    let s0 : ServerState :=
      { s with conns := (updateConn s.conns c (fun cs =>
          { cs with connected := false, ioRooms := [] })) }
    let step1 : ServerState × List (ConnId × Msg) :=
      if truthy st.currentRoom && truthy st.userName then
        safeLeaveRoom s0 st.currentRoom st.userName
      else (s0, [])
    let s2 : ServerState :=
      if st.debounceTimer.isSome then
        { step1.1 with conns := (updateConn step1.1.conns c (fun cs =>
            { cs with debounceTimer := none, pendingCode := none })) }
      else step1.1
    (s2, step1.2)

/-- The transport `connection` event: fresh per-socket state. -/
def handleConnect (s : ServerState) (c : ConnId) :
    ServerState × List (ConnId × Msg) :=
  ({ s with conns := setConn s.conns c initConn }, [])

/-- An event the single-threaded event loop can process. -/
inductive Event where
  | connect (c : ConnId)
  | join (c : ConnId) (roomId userName : JVal)
  | leaveRoom (c : ConnId)
  | codeChange (c : ConnId) (roomId code : JVal)
  | typing (c : ConnId) (roomId userName : JVal)
  | languageChange (c : ConnId) (roomId language : JVal)
  | timerFire (c : ConnId)
  | disconnect (c : ConnId)
  deriving DecidableEq

/-- One event-processing turn. -/
def step (s : ServerState) : Event → ServerState × List (ConnId × Msg)
  | Event.connect c => handleConnect s c
  | Event.join c roomId userName => handleJoin s c roomId userName
  | Event.leaveRoom c => handleLeaveRoom s c
  | Event.codeChange c roomId code => handleCodeChange s c roomId code
  | Event.typing c roomId userName => handleTyping s c roomId userName
  | Event.languageChange c roomId language => handleLanguageChange s c roomId language
  | Event.timerFire c => handleTimerFire s c
  | Event.disconnect c => handleDisconnect s c

/-- Run a sequence of events, collecting all deliveries in order. -/
def run (s : ServerState) : List Event → ServerState × List (ConnId × Msg)
  | [] => (s, [])
  | e :: es =>
    let r1 := step s e
    let r2 := run r1.1 es
    (r2.1, r1.2 ++ r2.2)

/-- Empty server: no rooms, no connections. -/
def initState : ServerState := { rooms := [], conns := [] }

/-- A state the server can be in after some sequence of events. -/
def Reachable (s : ServerState) : Prop :=
  ∃ es : List Event, (run initState es).1 = s

/-! ### Basic laws of the association-list operations -/

theorem alookup_cons {α β : Type} [DecidableEq α] (k k' : α) (v : β) (t : List (α × β)) :
    alookup ((k, v) :: t) k' = if k = k' then some v else alookup t k' := rfl

theorem alookup_aremove_self {α β : Type} [DecidableEq α] (l : List (α × β)) (k : α) :
    alookup (aremove l k) k = none := by
  induction l with
  | nil => rfl
  | cons p t ih =>
    obtain ⟨a, v⟩ := p
    by_cases h : a = k
    · rw [aremove, if_pos h, ih]
    · rw [aremove, if_neg h, alookup_cons, if_neg h, ih]

theorem alookup_aremove_ne {α β : Type} [DecidableEq α] (l : List (α × β)) (k k' : α)
    (h : k' ≠ k) : alookup (aremove l k) k' = alookup l k' := by
  induction l with
  | nil => rfl
  | cons p t ih =>
    obtain ⟨a, v⟩ := p
    by_cases h1 : a = k
    · subst h1
      rw [aremove, if_pos rfl, ih, alookup_cons, if_neg (Ne.symm h)]
    · rw [aremove, if_neg h1, alookup_cons, alookup_cons, ih]

theorem alookup_aset_self {α β : Type} [DecidableEq α] (l : List (α × β)) (k : α) (v : β) :
    alookup (aset l k v) k = some v := by
  rw [aset, alookup_cons, if_pos rfl]

theorem alookup_aset_ne {α β : Type} [DecidableEq α] (l : List (α × β)) (k k' : α) (v : β)
    (h : k' ≠ k) : alookup (aset l k v) k' = alookup l k' := by
  rw [aset, alookup_cons, if_neg (Ne.symm h), alookup_aremove_ne l k k' h]

theorem alookup_updateConn_self (l : List (ConnId × ConnState)) (c : ConnId)
    (f : ConnState → ConnState) :
    alookup (updateConn l c f) c = Option.map f (alookup l c) := by
  induction l with
  | nil => rfl
  | cons p t ih =>
    obtain ⟨a, v⟩ := p
    by_cases h : a = c
    · subst h
      rw [updateConn, if_pos rfl, alookup_cons, if_pos rfl, alookup_cons, if_pos rfl]
      rfl
    · rw [updateConn, if_neg h, alookup_cons, if_neg h, alookup_cons, if_neg h, ih]

theorem alookup_updateConn_ne (l : List (ConnId × ConnState)) (c c' : ConnId)
    (f : ConnState → ConnState) (h : c' ≠ c) :
    alookup (updateConn l c f) c' = alookup l c' := by
  induction l with
  | nil => rfl
  | cons p t ih =>
    obtain ⟨a, v⟩ := p
    by_cases h1 : a = c
    · subst h1
      rw [updateConn, if_pos rfl, alookup_cons, if_neg (Ne.symm h), alookup_cons,
        if_neg (Ne.symm h), ih]
    · rw [updateConn, if_neg h1, alookup_cons, alookup_cons, ih]

theorem mem_updateConn_cases {l : List (ConnId × ConnState)} {c : ConnId}
    {f : ConnState → ConnState} {p : ConnId × ConnState} (h : p ∈ updateConn l c f) :
    ∃ q, q ∈ l ∧ ((p = q ∧ q.1 ≠ c) ∨ (q.1 = c ∧ p = (q.1, f q.2))) := by
  induction l with
  | nil => cases h
  | cons a t ih =>
    obtain ⟨k, v⟩ := a
    by_cases hk : k = c
    · rw [updateConn, if_pos hk] at h
      rcases List.mem_cons.1 h with hh | hh
      · exact ⟨(k, v), List.mem_cons_self _ _, Or.inr ⟨hk, hh⟩⟩
      · obtain ⟨q, hq, hor⟩ := ih hh
        exact ⟨q, List.mem_cons_of_mem _ hq, hor⟩
    · rw [updateConn, if_neg hk] at h
      rcases List.mem_cons.1 h with hh | hh
      · exact ⟨(k, v), List.mem_cons_self _ _, Or.inl ⟨hh, hk⟩⟩
      · obtain ⟨q, hq, hor⟩ := ih hh
        exact ⟨q, List.mem_cons_of_mem _ hq, hor⟩

theorem alookup_isSome_of_mem {α β : Type} [DecidableEq α] {l : List (α × β)} {k : α}
    {v : β} (h : (k, v) ∈ l) : (alookup l k).isSome := by
  induction l with
  | nil => cases h
  | cons p t ih =>
    obtain ⟨a, v'⟩ := p
    rcases List.mem_cons.1 h with hh | hh
    · obtain ⟨h1, h2⟩ := Prod.mk.injEq .. ▸ hh
      rw [alookup_cons, if_pos h1.symm]
      rfl
    · by_cases ha : a = k
      · rw [alookup_cons, if_pos ha]; rfl
      · rw [alookup_cons, if_neg ha]; exact ih hh

theorem mem_setConn {l : List (ConnId × ConnState)} {c : ConnId} {v : ConnState}
    {p : ConnId × ConnState} (h : p ∈ setConn l c v) :
    p ∈ l ∨ p = (c, v) := by
  unfold setConn at h
  by_cases hc : (alookup l c).isSome
  · rw [if_pos hc] at h
    obtain ⟨q, hq, hor⟩ := mem_updateConn_cases h
    rcases hor with ⟨heq, _⟩ | ⟨h1, h2⟩
    · exact Or.inl (heq ▸ hq)
    · exact Or.inr (by rw [h2, h1])
  · rw [if_neg hc] at h
    rcases List.mem_append.1 h with hh | hh
    · exact Or.inl hh
    · simp at hh
      exact Or.inr hh

/-! ### Broadcast-delivery characterizations -/

theorem mem_roomRecipients {conns : List (ConnId × ConnState)} {r : String} {d : ConnId} :
    d ∈ roomRecipients conns r ↔
      ∃ st, (d, st) ∈ conns ∧ st.connected = true ∧ r ∈ st.ioRooms := by
  simp only [roomRecipients, List.mem_map, List.mem_filter]
  constructor
  · rintro ⟨⟨k, v⟩, ⟨hmem, hp⟩, hfst⟩
    simp only [Bool.and_eq_true, decide_eq_true_eq] at hp
    exact ⟨v, hfst ▸ hmem, hp.1, hp.2⟩
  · rintro ⟨st, hmem, hco, hio⟩
    exact ⟨(d, st), ⟨hmem, by simp [hco, hio]⟩, rfl⟩

theorem mem_emitToRoom {conns : List (ConnId × ConnState)} {r : String} {m : Msg}
    {d : ConnId} {m' : Msg} :
    (d, m') ∈ emitToRoom conns r m ↔ d ∈ roomRecipients conns r ∧ m' = m := by
  simp only [emitToRoom, List.mem_map]
  constructor
  · rintro ⟨e, hmem, heq⟩
    obtain ⟨h1, h2⟩ := Prod.mk.injEq .. ▸ heq
    exact ⟨h1 ▸ hmem, h2.symm⟩
  · rintro ⟨hmem, rfl⟩
    exact ⟨d, hmem, rfl⟩

theorem mem_emitToRoomExcept {conns : List (ConnId × ConnState)} {r : String}
    {sender : ConnId} {m : Msg} {d : ConnId} {m' : Msg} :
    (d, m') ∈ emitToRoomExcept conns r sender m ↔
      d ∈ roomRecipients conns r ∧ d ≠ sender ∧ m' = m := by
  simp only [emitToRoomExcept, List.mem_map, List.mem_filter]
  constructor
  · rintro ⟨e, ⟨hmem, hne⟩, heq⟩
    obtain ⟨h1, h2⟩ := Prod.mk.injEq .. ▸ heq
    rw [decide_eq_true_eq] at hne
    exact ⟨h1 ▸ hmem, h1 ▸ hne, h2.symm⟩
  · rintro ⟨hmem, hne, rfl⟩
    exact ⟨d, ⟨hmem, by simp [hne]⟩, rfl⟩

theorem roomRecipients_cons (k : ConnId) (v : ConnState) (t : List (ConnId × ConnState))
    (r : String) :
    roomRecipients ((k, v) :: t) r =
      if v.connected && decide (r ∈ v.ioRooms) then k :: roomRecipients t r
      else roomRecipients t r := by
  simp only [roomRecipients, List.filter_cons]
  by_cases h : (v.connected && decide (r ∈ v.ioRooms)) = true <;> simp [h]

theorem roomRecipients_updateConn (l : List (ConnId × ConnState)) (c : ConnId)
    (f : ConnState → ConnState)
    (hf : ∀ cs, (f cs).connected = cs.connected ∧ (f cs).ioRooms = cs.ioRooms)
    (r : String) :
    roomRecipients (updateConn l c f) r = roomRecipients l r := by
  induction l with
  | nil => rfl
  | cons p t ih =>
    obtain ⟨k, v⟩ := p
    by_cases hk : k = c
    · rw [updateConn, if_pos hk, roomRecipients_cons, roomRecipients_cons,
        (hf v).1, (hf v).2, ih]
    · rw [updateConn, if_neg hk, roomRecipients_cons, roomRecipients_cons, ih]

theorem addName_ne_nil (l : List String) (n : String) : addName l n ≠ [] := by
  unfold addName
  by_cases h : n ∈ l
  · rw [if_pos h]
    intro hl
    subst hl
    exact absurd h (List.not_mem_nil n)
  · rw [if_neg h]
    exact List.append_ne_nil_of_right_ne_nil l (by simp)


/-! ### Unfolding lemmas exposing each handler body once the connection
lookup is known -/

theorem handleJoin_eq_none (s : ServerState) (c : ConnId) (a b : JVal)
    (hc : alookup s.conns c = none) : handleJoin s c a b = (s, []) := by
  unfold handleJoin
  rw [hc]

theorem handleJoin_eq_some (s : ServerState) (c : ConnId) (a b : JVal) (st : ConnState)
    (hc : alookup s.conns c = some st) :
    handleJoin s c a b =
      (match a with
      | JVal.str rid =>
        if !trimNonempty rid then (s, [(c, Msg.error "Invalid or missing roomId in join")])
        else
          match b with
          | JVal.str uname =>
            if !trimNonempty uname then
              (s, [(c, Msg.error "Invalid or missing userName in join")])
            else
              let step1 : ServerState × List (ConnId × Msg) :=
                if truthy st.currentRoom then
                  let old := st.currentRoom.getD ""
                  let sa := safeLeaveRoom s st.currentRoom st.userName
                  ({ sa.1 with conns := (updateConn sa.1.conns c
                      (fun cs => { cs with ioRooms := removeName cs.ioRooms old })) },
                   sa.2)
                else (s, [])
              let s2 : ServerState :=
                { step1.1 with conns := (updateConn step1.1.conns c (fun cs =>
                    { cs with ioRooms := addName cs.ioRooms rid,
                              currentRoom := some rid, userName := some uname })) }
              let roster := addName ((alookup s2.rooms rid).getD []) uname
              let s3 : ServerState := { s2 with rooms := aset s2.rooms rid roster }
              (s3, step1.2 ++ emitToRoom s3.conns rid (Msg.userJoined roster))
          | _ => (s, [(c, Msg.error "Invalid or missing userName in join")])
      | _ => (s, [(c, Msg.error "Invalid or missing roomId in join")])) := by
  unfold handleJoin
  rw [hc]

theorem handleCodeChange_eq_none (s : ServerState) (c : ConnId) (a b : JVal)
    (hc : alookup s.conns c = none) : handleCodeChange s c a b = (s, []) := by
  unfold handleCodeChange
  rw [hc]

theorem handleCodeChange_eq_some (s : ServerState) (c : ConnId) (a b : JVal)
    (st : ConnState) (hc : alookup s.conns c = some st) :
    handleCodeChange s c a b =
      (match a with
      | JVal.str r =>
        if strEmpty r then (s, [])
        else
          match b with
          | JVal.str cd =>
            if st.currentRoom = some r then
              ({ s with conns := (updateConn s.conns c (fun cs =>
                  { cs with pendingCode := some cd, debounceTimer := some r })) }, [])
            else (s, [])
          | _ => (s, [])
      | _ => (s, [])) := by
  unfold handleCodeChange
  rw [hc]

theorem handleTimerFire_eq_none (s : ServerState) (c : ConnId)
    (hc : alookup s.conns c = none) : handleTimerFire s c = (s, []) := by
  unfold handleTimerFire
  rw [hc]

theorem handleTimerFire_eq_some (s : ServerState) (c : ConnId) (st : ConnState)
    (hc : alookup s.conns c = some st) :
    handleTimerFire s c =
      (match st.debounceTimer with
      | none => (s, [])
      | some r =>
        ({ s with conns := (updateConn s.conns c (fun cs =>
            { cs with pendingCode := none, debounceTimer := none })) },
         emitToRoomExcept s.conns r c (Msg.codeUpdate st.pendingCode))) := by
  unfold handleTimerFire
  rw [hc]

theorem handleLeaveRoom_eq_none (s : ServerState) (c : ConnId)
    (hc : alookup s.conns c = none) : handleLeaveRoom s c = (s, []) := by
  unfold handleLeaveRoom
  rw [hc]

theorem handleLeaveRoom_eq_some (s : ServerState) (c : ConnId) (st : ConnState)
    (hc : alookup s.conns c = some st) :
    handleLeaveRoom s c =
      (let step1 : ServerState × List (ConnId × Msg) :=
        if truthy st.currentRoom && truthy st.userName then
          let old := st.currentRoom.getD ""
          let sa := safeLeaveRoom s st.currentRoom st.userName
          ({ sa.1 with conns := (updateConn sa.1.conns c
              (fun cs => { cs with ioRooms := removeName cs.ioRooms old })) },
           sa.2)
        else (s, [])
      ({ step1.1 with conns := (updateConn step1.1.conns c
          (fun cs => { cs with currentRoom := none, userName := none })) },
       step1.2)) := by
  unfold handleLeaveRoom
  rw [hc]

theorem handleTyping_eq_none (s : ServerState) (c : ConnId) (a b : JVal)
    (hc : alookup s.conns c = none) : handleTyping s c a b = (s, []) := by
  unfold handleTyping
  rw [hc]

theorem handleTyping_eq_some (s : ServerState) (c : ConnId) (a b : JVal) (st : ConnState)
    (hc : alookup s.conns c = some st) :
    handleTyping s c a b =
      (match a with
      | JVal.str r => (s, emitToRoomExcept s.conns r c (Msg.userTyping b))
      | _ => (s, [])) := by
  unfold handleTyping
  rw [hc]

theorem handleLanguageChange_eq_none (s : ServerState) (c : ConnId) (a b : JVal)
    (hc : alookup s.conns c = none) : handleLanguageChange s c a b = (s, []) := by
  unfold handleLanguageChange
  rw [hc]

theorem handleLanguageChange_eq_some (s : ServerState) (c : ConnId) (a b : JVal)
    (st : ConnState) (hc : alookup s.conns c = some st) :
    handleLanguageChange s c a b =
      (match a, b with
      | JVal.str r, JVal.str lg => (s, emitToRoom s.conns r (Msg.languageUpdate lg))
      | _, _ => (s, [])) := by
  unfold handleLanguageChange
  rw [hc]

theorem handleDisconnect_eq_none (s : ServerState) (c : ConnId)
    (hc : alookup s.conns c = none) : handleDisconnect s c = (s, []) := by
  unfold handleDisconnect
  rw [hc]

theorem handleDisconnect_eq_some (s : ServerState) (c : ConnId) (st : ConnState)
    (hc : alookup s.conns c = some st) :
    handleDisconnect s c =
      (let s0 : ServerState :=
        { s with conns := (updateConn s.conns c (fun cs =>
            { cs with connected := false, ioRooms := [] })) }
      let step1 : ServerState × List (ConnId × Msg) :=
        if truthy st.currentRoom && truthy st.userName then
          safeLeaveRoom s0 st.currentRoom st.userName
        else (s0, [])
      let s2 : ServerState :=
        if st.debounceTimer.isSome then
          { step1.1 with conns := (updateConn step1.1.conns c (fun cs =>
              { cs with debounceTimer := none, pendingCode := none })) }
        else step1.1
      (s2, step1.2)) := by
  unfold handleDisconnect
  rw [hc]

/-! ### State-projection characterizations of the handlers -/

/-- The pure effect of `safeLeaveRoom` on the rooms directory. -/
def leaveRooms (rooms : List (String × List String)) (ro un : Option String) :
    List (String × List String) :=
  match ro with
  | none => rooms
  | some r =>
    if strEmpty r then rooms
    else
      match alookup rooms r with
      | none => rooms
      | some names =>
        let names' : List String :=
          match un with
          | some u => removeName names u
          | none => names
        if names' = [] then aremove rooms r else aset rooms r names'

theorem safeLeaveRoom_fst_rooms (s : ServerState) (ro un : Option String) :
    (safeLeaveRoom s ro un).1.rooms = leaveRooms s.rooms ro un := by
  cases ro with
  | none => rfl
  | some r =>
    cases he : strEmpty r with
    | true => simp only [safeLeaveRoom, leaveRooms, he, if_true]
    | false =>
      cases hl : alookup s.rooms r with
      | none => simp only [safeLeaveRoom, leaveRooms, he, Bool.false_eq_true, if_false, hl]
      | some names =>
        by_cases hn : (match un with
            | some u => removeName names u
            | none => names) = [] <;>
          simp only [safeLeaveRoom, leaveRooms, he, Bool.false_eq_true, if_false, hl,
            hn, if_true]

theorem safeLeaveRoom_fst_conns (s : ServerState) (ro un : Option String) :
    (safeLeaveRoom s ro un).1.conns = s.conns := by
  cases ro with
  | none => rfl
  | some r =>
    cases he : strEmpty r with
    | true => simp only [safeLeaveRoom, he, if_true]
    | false =>
      cases hl : alookup s.rooms r with
      | none => simp only [safeLeaveRoom, he, Bool.false_eq_true, if_false, hl]
      | some names =>
        simp only [safeLeaveRoom, he, Bool.false_eq_true, if_false, hl]

/-- `RoomsInvL rooms`: every room present in the directory has a non-empty
participant set. -/
def RoomsInvL (rooms : List (String × List String)) : Prop :=
  ∀ r l, alookup rooms r = some l → l ≠ []

theorem roomsInvL_aset (rooms : List (String × List String)) (k : String)
    (v : List String) (h : RoomsInvL rooms) (hv : v ≠ []) :
    RoomsInvL (aset rooms k v) := by
  intro r l hl
  by_cases hr : r = k
  · subst hr
    rw [alookup_aset_self] at hl
    cases hl
    exact hv
  · rw [alookup_aset_ne _ _ _ _ hr] at hl
    exact h r l hl

theorem roomsInvL_aremove (rooms : List (String × List String)) (k : String)
    (h : RoomsInvL rooms) : RoomsInvL (aremove rooms k) := by
  intro r l hl
  by_cases hr : r = k
  · subst hr
    rw [alookup_aremove_self] at hl
    cases hl
  · rw [alookup_aremove_ne _ _ _ hr] at hl
    exact h r l hl

theorem roomsInvL_leaveRooms (rooms : List (String × List String)) (ro un : Option String)
    (h : RoomsInvL rooms) : RoomsInvL (leaveRooms rooms ro un) := by
  cases ro with
  | none => exact h
  | some r =>
    cases he : strEmpty r with
    | true => simpa only [leaveRooms, he, if_true] using h
    | false =>
      cases hl : alookup rooms r with
      | none => simpa only [leaveRooms, he, Bool.false_eq_true, if_false, hl] using h
      | some names =>
        by_cases hn : (match un with
            | some u => removeName names u
            | none => names) = []
        · simp only [leaveRooms, he, Bool.false_eq_true, if_false, hl, hn, if_true]
          exact roomsInvL_aremove rooms r h
        · simp only [leaveRooms, he, Bool.false_eq_true, if_false, hl, hn]
          exact roomsInvL_aset rooms r _ h hn

theorem handleConnect_fst_rooms (s : ServerState) (c : ConnId) :
    (handleConnect s c).1.rooms = s.rooms := rfl

theorem handleTyping_fst (s : ServerState) (c : ConnId) (a b : JVal) :
    (handleTyping s c a b).1 = s := by
  cases hc : alookup s.conns c with
  | none => rw [handleTyping_eq_none s c a b hc]
  | some st =>
    rw [handleTyping_eq_some s c a b st hc]
    cases a <;> rfl

theorem handleLanguageChange_fst (s : ServerState) (c : ConnId) (a b : JVal) :
    (handleLanguageChange s c a b).1 = s := by
  cases hc : alookup s.conns c with
  | none => rw [handleLanguageChange_eq_none s c a b hc]
  | some st =>
    rw [handleLanguageChange_eq_some s c a b st hc]
    cases a <;> cases b <;> rfl

theorem handleCodeChange_fst_rooms (s : ServerState) (c : ConnId) (a b : JVal) :
    (handleCodeChange s c a b).1.rooms = s.rooms := by
  cases hc : alookup s.conns c with
  | none => rw [handleCodeChange_eq_none s c a b hc]
  | some st =>
    rw [handleCodeChange_eq_some s c a b st hc]
    cases a with
    | str r =>
      cases he : strEmpty r with
      | true => simp only [he, if_true]
      | false =>
        cases b with
        | str cd =>
          by_cases hm : st.currentRoom = some r <;>
            simp only [he, Bool.false_eq_true, if_false, hm, if_true]
        | undef => simp only [he, Bool.false_eq_true, if_false]
        | other => simp only [he, Bool.false_eq_true, if_false]
    | undef => rfl
    | other => rfl

theorem handleTimerFire_fst_rooms (s : ServerState) (c : ConnId) :
    (handleTimerFire s c).1.rooms = s.rooms := by
  cases hc : alookup s.conns c with
  | none => rw [handleTimerFire_eq_none s c hc]
  | some st =>
    rw [handleTimerFire_eq_some s c st hc]
    cases st.debounceTimer <;> rfl

theorem handleLeaveRoom_fst_rooms (s : ServerState) (c : ConnId) :
    ∃ ro un, (handleLeaveRoom s c).1.rooms = leaveRooms s.rooms ro un := by
  cases hc : alookup s.conns c with
  | none => exact ⟨none, none, by rw [handleLeaveRoom_eq_none s c hc]; rfl⟩

  | some st =>
    rw [handleLeaveRoom_eq_some s c st hc]
    cases ht : (truthy st.currentRoom && truthy st.userName) with
    | true =>
      refine ⟨st.currentRoom, st.userName, ?_⟩
      simp only [ht, if_true]
      exact safeLeaveRoom_fst_rooms s st.currentRoom st.userName
    | false => exact ⟨none, none, by simp only [ht, Bool.false_eq_true, if_false]; rfl⟩

theorem handleDisconnect_fst_rooms (s : ServerState) (c : ConnId) :
    ∃ ro un, (handleDisconnect s c).1.rooms = leaveRooms s.rooms ro un := by
  cases hc : alookup s.conns c with
  | none => exact ⟨none, none, by rw [handleDisconnect_eq_none s c hc]; rfl⟩
  | some st =>
    rw [handleDisconnect_eq_some s c st hc]
    cases ht : (truthy st.currentRoom && truthy st.userName) with
    | true =>
      refine ⟨st.currentRoom, st.userName, ?_⟩
      cases hd : st.debounceTimer.isSome <;>
        simp only [ht, if_true, hd, Bool.false_eq_true, if_false] <;>
        exact safeLeaveRoom_fst_rooms _ st.currentRoom st.userName
    | false =>
      refine ⟨none, none, ?_⟩
      cases hd : st.debounceTimer.isSome <;>
        simp only [ht, if_true, hd, Bool.false_eq_true, if_false] <;> rfl

theorem handleJoin_fst_rooms (s : ServerState) (c : ConnId) (a b : JVal) :
    (handleJoin s c a b).1.rooms = s.rooms ∨
    ∃ ro un rid roster, roster ≠ [] ∧
      (handleJoin s c a b).1.rooms = aset (leaveRooms s.rooms ro un) rid roster := by
  cases hc : alookup s.conns c with
  | none =>
    rw [handleJoin_eq_none s c a b hc]
    exact Or.inl rfl
  | some st =>
    rw [handleJoin_eq_some s c a b st hc]
    cases a with
    | str rid =>
      cases hr : trimNonempty rid with
      | false => exact Or.inl (by simp only [hr, Bool.not_false, if_true])
      | true =>
        cases b with
        | str uname =>
          cases hu : trimNonempty uname with
          | false =>
            exact Or.inl (by simp only [hr, hu, Bool.not_true, Bool.not_false,
              Bool.false_eq_true, if_false, if_true])
          | true =>
            cases ht : truthy st.currentRoom with
            | true =>
              refine Or.inr ⟨st.currentRoom, st.userName, rid,
                addName ((alookup (leaveRooms s.rooms st.currentRoom st.userName)
                  rid).getD []) uname, addName_ne_nil _ uname, ?_⟩
              simp only [hr, hu, Bool.not_true, Bool.false_eq_true, if_false, ht, if_true,
                safeLeaveRoom_fst_rooms s st.currentRoom st.userName]
            | false =>
              refine Or.inr ⟨none, none, rid,
                addName ((alookup s.rooms rid).getD []) uname, addName_ne_nil _ uname, ?_⟩
              simp only [hr, hu, Bool.not_true, Bool.false_eq_true, if_false, ht, if_true]
              rfl
        | undef =>
          exact Or.inl (by simp only [hr, Bool.not_true, Bool.false_eq_true, if_false])
        | other =>
          exact Or.inl (by simp only [hr, Bool.not_true, Bool.false_eq_true, if_false])
    | undef => exact Or.inl rfl
    | other => exact Or.inl rfl

/-- `RoomsInv`: the Room Directory invariant, over a whole server state. -/
def RoomsInv (s : ServerState) : Prop := RoomsInvL s.rooms

theorem roomsInv_step (s : ServerState) (e : Event) (h : RoomsInv s) :
    RoomsInv (step s e).1 := by
  cases e with
  | connect c => exact h
  | join c a b =>
    show RoomsInvL (handleJoin s c a b).1.rooms
    rcases handleJoin_fst_rooms s c a b with heq | ⟨ro, un, rid, roster, hne, heq⟩
    · rw [heq]; exact h
    · rw [heq]
      exact roomsInvL_aset _ _ _ (roomsInvL_leaveRooms s.rooms ro un h) hne
  | leaveRoom c =>
    show RoomsInvL (handleLeaveRoom s c).1.rooms
    obtain ⟨ro, un, heq⟩ := handleLeaveRoom_fst_rooms s c
    rw [heq]
    exact roomsInvL_leaveRooms s.rooms ro un h
  | codeChange c a b =>
    show RoomsInvL (handleCodeChange s c a b).1.rooms
    rw [handleCodeChange_fst_rooms]
    exact h
  | typing c a b =>
    show RoomsInvL (handleTyping s c a b).1.rooms
    rw [handleTyping_fst]
    exact h
  | languageChange c a b =>
    show RoomsInvL (handleLanguageChange s c a b).1.rooms
    rw [handleLanguageChange_fst]
    exact h
  | timerFire c =>
    show RoomsInvL (handleTimerFire s c).1.rooms
    rw [handleTimerFire_fst_rooms]
    exact h
  | disconnect c =>
    show RoomsInvL (handleDisconnect s c).1.rooms
    obtain ⟨ro, un, heq⟩ := handleDisconnect_fst_rooms s c
    rw [heq]
    exact roomsInvL_leaveRooms s.rooms ro un h

theorem roomsInv_run (s : ServerState) (es : List Event) (h : RoomsInv s) :
    RoomsInv (run s es).1 := by
  induction es generalizing s with
  | nil => exact h
  | cons e t ih => exact ih (step s e).1 (roomsInv_step s e h)


theorem mem_of_alookup_eq {α β : Type} [DecidableEq α] {l : List (α × β)} {k : α} {v : β}
    (h : alookup l k = some v) : (k, v) ∈ l := by
  induction l with
  | nil => cases h
  | cons p t ih =>
    obtain ⟨a, v'⟩ := p
    by_cases ha : a = k
    · subst ha
      rw [alookup_cons, if_pos rfl] at h
      cases h
      exact List.mem_cons_self _ _
    · rw [alookup_cons, if_neg ha] at h
      exact List.mem_cons_of_mem _ (ih h)

/-- C4: a room id is in the Directory iff its stored participant set is
non-empty, in every reachable state. -/
theorem room_dir_iff_nonempty (s : ServerState) (h : Reachable s) (r : String) :
    (alookup s.rooms r).isSome ↔ (alookup s.rooms r).getD [] ≠ [] := by
  obtain ⟨es, rfl⟩ := h
  have hinv : RoomsInv (run initState es).1 :=
    roomsInv_run initState es (fun r l hl => Option.noConfusion hl)
  constructor
  · intro hs
    obtain ⟨l, hl⟩ := Option.isSome_iff_exists.1 hs
    rw [hl]
    exact hinv r l hl
  · intro hne
    by_contra hns
    rw [Option.not_isSome_iff_eq_none] at hns
    rw [hns] at hne
    exact hne rfl

/-- Witness for C4 at a concrete reachable state. -/
theorem room_dir_iff_nonempty_witness :
    (alookup (run initState [Event.connect 0,
      Event.join 0 (JVal.str "R") (JVal.str "Alice")]).1.rooms "R").getD [] ≠ [] :=
  (room_dir_iff_nonempty _ ⟨[Event.connect 0,
      Event.join 0 (JVal.str "R") (JVal.str "Alice")], rfl⟩ "R").mp (by decide)

/-! ### The connection-fields invariant (C9) -/

/-- The per-connection invariant: room and name are both null or both
non-null. -/
def BothNull (cs : ConnState) : Prop := cs.currentRoom = none ↔ cs.userName = none

/-- All registered connection states satisfy `BothNull`. -/
def ConnFieldsInv (s : ServerState) : Prop :=
  ∀ p : ConnId × ConnState, p ∈ s.conns → BothNull p.2

theorem forall_mem_updateConn {P : ConnState → Prop} {l : List (ConnId × ConnState)}
    {c : ConnId} {f : ConnState → ConnState}
    (h : ∀ p : ConnId × ConnState, p ∈ l → P p.2) (hf : ∀ cs, P cs → P (f cs)) :
    ∀ p : ConnId × ConnState, p ∈ updateConn l c f → P p.2 := by
  intro p hp
  obtain ⟨q, hq, hor⟩ := mem_updateConn_cases hp
  rcases hor with ⟨heq, _⟩ | ⟨h1, h2⟩
  · rw [heq]
    exact h q hq
  · rw [h2]
    exact hf q.2 (h q hq)

theorem connFieldsInv_step (s : ServerState) (e : Event) (h : ConnFieldsInv s) :
    ConnFieldsInv (step s e).1 := by
  cases e with
  | connect c =>
    intro p hp
    rcases mem_setConn hp with hin | heq
    · exact h p hin
    · rw [heq]
      exact Iff.rfl
  | join c a b =>
    show ConnFieldsInv (handleJoin s c a b).1
    cases hc : alookup s.conns c with
    | none =>
      rw [handleJoin_eq_none s c a b hc]
      exact h
    | some st =>
      rw [handleJoin_eq_some s c a b st hc]
      cases a with
      | str rid =>
        cases hr : trimNonempty rid with
        | false => simpa only [hr, Bool.not_false, if_true] using h
        | true =>
          cases b with
          | str uname =>
            cases hu : trimNonempty uname with
            | false =>
              simpa only [hr, hu, Bool.not_true, Bool.false_eq_true, if_false,
                Bool.not_false, if_true] using h
            | true =>
              cases ht : truthy st.currentRoom with
              | true =>
                simp only [hr, hu, Bool.not_true, Bool.false_eq_true, if_false, ht,
                  if_true]
                intro p hp
                rw [safeLeaveRoom_fst_conns] at hp
                refine forall_mem_updateConn ?_ ?_ p hp
                · exact forall_mem_updateConn h (fun cs hcs => hcs)
                · exact fun cs _ => by simp [BothNull]
              | false =>
                simp only [hr, hu, Bool.not_true, Bool.false_eq_true, if_false, ht,
                  if_true]
                intro p hp
                refine forall_mem_updateConn h ?_ p hp
                exact fun cs _ => by simp [BothNull]
          | undef =>
            simpa only [hr, Bool.not_true, Bool.false_eq_true, if_false] using h
          | other =>
            simpa only [hr, Bool.not_true, Bool.false_eq_true, if_false] using h
      | undef => exact h
      | other => exact h
  | leaveRoom c =>
    show ConnFieldsInv (handleLeaveRoom s c).1
    cases hc : alookup s.conns c with
    | none =>
      rw [handleLeaveRoom_eq_none s c hc]
      exact h
    | some st =>
      rw [handleLeaveRoom_eq_some s c st hc]
      cases ht : (truthy st.currentRoom && truthy st.userName) with
      | true =>
        simp only [ht, if_true]
        intro p hp
        rw [safeLeaveRoom_fst_conns] at hp
        refine forall_mem_updateConn ?_ ?_ p hp
        · exact forall_mem_updateConn h (fun cs hcs => hcs)
        · exact fun cs _ => by simp [BothNull]
      | false =>
        simp only [ht, Bool.false_eq_true, if_false]
        intro p hp
        refine forall_mem_updateConn h ?_ p hp
        exact fun cs _ => by simp [BothNull]
  | codeChange c a b =>
    show ConnFieldsInv (handleCodeChange s c a b).1
    cases hc : alookup s.conns c with
    | none =>
      rw [handleCodeChange_eq_none s c a b hc]
      exact h
    | some st =>
      rw [handleCodeChange_eq_some s c a b st hc]
      cases a with
      | str r =>
        cases he : strEmpty r with
        | true => simpa only [he, if_true] using h
        | false =>
          cases b with
          | str cd =>
            by_cases hm : st.currentRoom = some r
            · simp only [he, Bool.false_eq_true, if_false, hm, if_true]
              intro p hp
              refine forall_mem_updateConn h ?_ p hp
              exact fun cs hcs => hcs
            · simpa only [he, Bool.false_eq_true, if_false, hm] using h
          | undef => simpa only [he, Bool.false_eq_true, if_false] using h
          | other => simpa only [he, Bool.false_eq_true, if_false] using h
      | undef => exact h
      | other => exact h
  | typing c a b =>
    show ConnFieldsInv (handleTyping s c a b).1
    rw [handleTyping_fst]
    exact h
  | languageChange c a b =>
    show ConnFieldsInv (handleLanguageChange s c a b).1
    rw [handleLanguageChange_fst]
    exact h
  | timerFire c =>
    show ConnFieldsInv (handleTimerFire s c).1
    cases hc : alookup s.conns c with
    | none =>
      rw [handleTimerFire_eq_none s c hc]
      exact h
    | some st =>
      rw [handleTimerFire_eq_some s c st hc]
      cases st.debounceTimer with
      | none => exact h
      | some r =>
        intro p hp
        refine forall_mem_updateConn h ?_ p hp
        exact fun cs hcs => hcs
  | disconnect c =>
    show ConnFieldsInv (handleDisconnect s c).1
    cases hc : alookup s.conns c with
    | none =>
      rw [handleDisconnect_eq_none s c hc]
      exact h
    | some st =>
      rw [handleDisconnect_eq_some s c st hc]
      cases ht : (truthy st.currentRoom && truthy st.userName) with
      | true =>
        cases hd : st.debounceTimer.isSome with
        | true =>
          simp only [ht, if_true, hd]
          intro p hp
          rw [safeLeaveRoom_fst_conns] at hp
          refine forall_mem_updateConn ?_ ?_ p hp
          · exact forall_mem_updateConn h (fun cs hcs => hcs)
          · exact fun cs hcs => hcs
        | false =>
          simp only [ht, if_true, hd, Bool.false_eq_true, if_false]
          intro p hp
          rw [safeLeaveRoom_fst_conns] at hp
          refine forall_mem_updateConn h ?_ p hp
          exact fun cs hcs => hcs
      | false =>
        cases hd : st.debounceTimer.isSome with
        | true =>
          simp only [ht, Bool.false_eq_true, if_false, hd, if_true]
          intro p hp
          refine forall_mem_updateConn ?_ ?_ p hp
          · exact forall_mem_updateConn h (fun cs hcs => hcs)
          · exact fun cs hcs => hcs
        | false =>
          simp only [ht, Bool.false_eq_true, if_false, hd]
          intro p hp
          refine forall_mem_updateConn h ?_ p hp
          exact fun cs hcs => hcs

theorem connFieldsInv_run (s : ServerState) (es : List Event) (h : ConnFieldsInv s) :
    ConnFieldsInv (run s es).1 := by
  induction es generalizing s with
  | nil => exact h
  | cons e t ih => exact ih (step s e).1 (connFieldsInv_step s e h)

/-- C9: in every reachable state, a connection's current-room and
display-name fields are both null or both non-null. -/
theorem conn_fields_both_null_or_both_set (s : ServerState) (h : Reachable s)
    (c : ConnId) (st : ConnState) (hc : alookup s.conns c = some st) :
    st.currentRoom = none ↔ st.userName = none := by
  obtain ⟨es, rfl⟩ := h
  have hinv : ConnFieldsInv (run initState es).1 :=
    connFieldsInv_run initState es (fun p hp => absurd hp (List.not_mem_nil p))
  exact hinv (c, st) (mem_of_alookup_eq hc)

/-- Witness for C9 at a concrete reachable state and connection. -/
theorem conn_fields_both_null_or_both_set_witness :
    some "R" = none ↔ some "Alice" = (none : Option String) :=
  conn_fields_both_null_or_both_set _
    ⟨[Event.connect 0, Event.join 0 (JVal.str "R") (JVal.str "Alice")], rfl⟩ 0
    { currentRoom := some "R", userName := some "Alice", pendingCode := none,
      debounceTimer := none, connected := true, ioRooms := ["R"] } (by decide)


/-! ### C7: invalid join -/

/-- C7: a `join` whose roomId or userName fails validation produces exactly
one `error` event, delivered to the sender only, and leaves the server state
unchanged (so no `userJoined` broadcast occurs and the connection can
retry). -/
theorem invalid_join_error_only_no_state_change (s : ServerState) (c : ConnId)
    (st : ConnState) (rj un : JVal) (hc : alookup s.conns c = some st)
    (hbad : validStr rj = false ∨ validStr un = false) :
    step s (Event.join c rj un) =
        (s, [(c, Msg.error "Invalid or missing roomId in join")]) ∨
    step s (Event.join c rj un) =
        (s, [(c, Msg.error "Invalid or missing userName in join")]) := by
  show handleJoin s c rj un = _ ∨ handleJoin s c rj un = _
  rw [handleJoin_eq_some s c rj un st hc]
  cases rj with
  | str rid =>
    cases hr : trimNonempty rid with
    | false => exact Or.inl (by simp only [hr, Bool.not_false, if_true])
    | true =>
      have hun : validStr un = false := by
        rcases hbad with hb | hb
        · rw [validStr, hr] at hb
          cases hb
        · exact hb
      cases un with
      | str uname =>
        have hu : trimNonempty uname = false := by rwa [validStr] at hun
        exact Or.inr (by simp only [hr, hu, Bool.not_true, Bool.not_false,
          Bool.false_eq_true, if_false, if_true])
      | undef =>
        exact Or.inr (by simp only [hr, Bool.not_true, Bool.false_eq_true, if_false])
      | other =>
        exact Or.inr (by simp only [hr, Bool.not_true, Bool.false_eq_true, if_false])
  | undef => exact Or.inl rfl
  | other => exact Or.inl rfl

/-- Witness for C7: joining with an empty roomId from a fresh connection. -/
theorem invalid_join_error_only_no_state_change_witness :
    step (run initState [Event.connect 0]).1 (Event.join 0 (JVal.str "") (JVal.str "Bob")) =
        ((run initState [Event.connect 0]).1,
         [(0, Msg.error "Invalid or missing roomId in join")]) ∨
    step (run initState [Event.connect 0]).1 (Event.join 0 (JVal.str "") (JVal.str "Bob")) =
        ((run initState [Event.connect 0]).1,
         [(0, Msg.error "Invalid or missing userName in join")]) :=
  invalid_join_error_only_no_state_change _ 0 initConn (JVal.str "") (JVal.str "Bob")
    (by decide) (Or.inl (by decide))

/-! ### C10: names are stored untrimmed -/

theorem mem_addName_self (l : List String) (n : String) : n ∈ addName l n := by
  unfold addName
  by_cases h : n ∈ l
  · rwa [if_pos h]
  · rw [if_neg h]
    exact List.mem_append_right l (List.mem_singleton.2 rfl)

/-- C10: a valid join stores the userName exactly as sent (untrimmed) in the
connection state, in the room's participant set, and in the roster
broadcast; trimming is applied only in the emptiness check. -/
theorem join_stores_untrimmed_name (s : ServerState) (c : ConnId) (st : ConnState)
    (rid un : String) (hc : alookup s.conns c = some st) (hnr : st.currentRoom = none)
    (hr : trimNonempty rid = true) (hu : trimNonempty un = true) :
    alookup (step s (Event.join c (JVal.str rid) (JVal.str un))).1.conns c =
      some { st with
              ioRooms := addName st.ioRooms rid
              currentRoom := some rid
              userName := some un } ∧
    alookup (step s (Event.join c (JVal.str rid) (JVal.str un))).1.rooms rid =
      some (addName ((alookup s.rooms rid).getD []) un) ∧
    (step s (Event.join c (JVal.str rid) (JVal.str un))).2 =
      emitToRoom (step s (Event.join c (JVal.str rid) (JVal.str un))).1.conns rid
        (Msg.userJoined (addName ((alookup s.rooms rid).getD []) un)) ∧
    un ∈ addName ((alookup s.rooms rid).getD []) un := by
  show alookup (handleJoin s c _ _).1.conns c = _ ∧
    alookup (handleJoin s c _ _).1.rooms rid = _ ∧
    (handleJoin s c _ _).2 = emitToRoom (handleJoin s c _ _).1.conns rid _ ∧ _
  rw [handleJoin_eq_some s c _ _ st hc]
  simp only [hr, hu, Bool.not_true, Bool.false_eq_true, if_false, hnr, truthy]
  refine ⟨?_, ?_, ?_, mem_addName_self _ un⟩
  · rw [alookup_updateConn_self, hc]
    rfl
  · rw [alookup_aset_self]
  · rw [List.nil_append]

/-- Witness for C10: "  Bob  " and "Bob" become distinct roster entries of
the same room. -/
theorem join_stores_untrimmed_name_witness :
    alookup (step (run initState [Event.connect 0, Event.connect 1,
        Event.join 0 (JVal.str "R") (JVal.str "  Bob  ")]).1
      (Event.join 1 (JVal.str "R") (JVal.str "Bob"))).1.rooms "R" =
      some ["  Bob  ", "Bob"] :=
  ((join_stores_untrimmed_name (run initState [Event.connect 0, Event.connect 1,
      Event.join 0 (JVal.str "R") (JVal.str "  Bob  ")]).1 1 initConn "R" "Bob"
    (by decide) rfl (by decide) (by decide)).2.1).trans (by decide)


/-! ### C3: recipients of the leave-roster broadcast -/

theorem safeLeaveRoom_snd (s : ServerState) (r u : String) (roster : List String)
    (hr : strEmpty r = false) (hl : alookup s.rooms r = some roster) :
    (safeLeaveRoom s (some r) (some u)).2 =
      emitToRoom s.conns r (Msg.userJoined (removeName roster u)) := by
  simp only [safeLeaveRoom, hr, Bool.false_eq_true, if_false, hl]

theorem safeLeaveRoom_snd_all_userJoined (s : ServerState) (ro un : Option String)
    (d : ConnId) (m : Msg) (hm : (d, m) ∈ (safeLeaveRoom s ro un).2) :
    ∃ names, m = Msg.userJoined names := by
  cases ro with
  | none => cases hm
  | some r =>
    cases he : strEmpty r with
    | true =>
      rw [show (safeLeaveRoom s (some r) un) = (s, []) by
        simp only [safeLeaveRoom, he, if_true]] at hm
      cases hm
    | false =>
      cases hl : alookup s.rooms r with
      | none =>
        rw [show (safeLeaveRoom s (some r) un) = (s, []) by
          simp only [safeLeaveRoom, he, Bool.false_eq_true, if_false, hl]] at hm
        cases hm
      | some names =>
        cases un with
        | none =>
          rw [show (safeLeaveRoom s (some r) none).2 =
              emitToRoom s.conns r (Msg.userJoined names) by
            simp only [safeLeaveRoom, he, Bool.false_eq_true, if_false, hl]] at hm
          exact ⟨names, (mem_emitToRoom.1 hm).2⟩
        | some u =>
          rw [show (safeLeaveRoom s (some r) (some u)).2 =
              emitToRoom s.conns r (Msg.userJoined (removeName names u)) by
            simp only [safeLeaveRoom, he, Bool.false_eq_true, if_false, hl]] at hm
          exact ⟨removeName names u, (mem_emitToRoom.1 hm).2⟩

/-- C3 counterexample: on an explicit `leaveRoom` the departing connection
itself receives the `userJoined` roster broadcast (it is still in the
socket.io room when `io.to(roomId).emit` runs), and when it was the last
member the empty participant list is broadcast to it. -/
theorem leave_roster_reaches_departing_conn :
    (1, Msg.userJoined ["Alice"]) ∈
      (run initState [Event.connect 0, Event.connect 1,
        Event.join 0 (JVal.str "R") (JVal.str "Alice"),
        Event.join 1 (JVal.str "R") (JVal.str "Bob"),
        Event.leaveRoom 1]).2 ∧
    (0, Msg.userJoined []) ∈
      (run initState [Event.connect 0,
        Event.join 0 (JVal.str "R") (JVal.str "Alice"),
        Event.leaveRoom 0]).2 := by
  constructor <;> decide

/-- C3 amended: the `leaveRoom` roster broadcast goes to every connected
socket in the socket.io room at emit time — including the departing
connection, which leaves the socket.io room only afterwards (so when it was
the last member, it receives the empty list).  Only on transport disconnect,
where socket.io has already removed the socket from its rooms, is the
broadcast confined to the remaining members (the departing connection
receives nothing). -/
theorem leave_roster_recipients (s : ServerState) (c : ConnId) (st : ConnState)
    (R u : String) (roster : List String)
    (hc : alookup s.conns c = some st) (hcr : st.currentRoom = some R)
    (hun : st.userName = some u) (hR : strEmpty R = false) (hu : strEmpty u = false)
    (hroom : alookup s.rooms R = some roster)
    (hconn : st.connected = true) (hio : R ∈ st.ioRooms) :
    (step s (Event.leaveRoom c)).2 =
      emitToRoom s.conns R (Msg.userJoined (removeName roster u)) ∧
    (c, Msg.userJoined (removeName roster u)) ∈ (step s (Event.leaveRoom c)).2 ∧
    (∀ m : Msg, (c, m) ∉ (step s (Event.disconnect c)).2) := by
  have hout : (step s (Event.leaveRoom c)).2 =
      emitToRoom s.conns R (Msg.userJoined (removeName roster u)) := by
    show (handleLeaveRoom s c).2 = _
    rw [handleLeaveRoom_eq_some s c st hc]
    simp only [hcr, hun, truthy, hR, hu, Bool.not_false, Bool.and_self, if_true]
    exact safeLeaveRoom_snd s R u roster hR hroom
  refine ⟨hout, ?_, ?_⟩
  · rw [hout]
    exact mem_emitToRoom.2 ⟨mem_roomRecipients.2 ⟨st, mem_of_alookup_eq hc, hconn, hio⟩,
      rfl⟩
  · intro m hm
    have hmem : (c, m) ∈ (handleDisconnect s c).2 := hm
    rw [handleDisconnect_eq_some s c st hc] at hmem
    simp only [hcr, hun, truthy, hR, hu, Bool.not_false, Bool.and_self, if_true] at hmem
    rw [safeLeaveRoom_snd { rooms := s.rooms, conns := (updateConn s.conns c (fun cs =>
        { cs with connected := false, ioRooms := [] })) } R u roster hR hroom] at hmem
    have hrec := (mem_emitToRoom.1 hmem).1
    obtain ⟨stx, hmemx, hcox, hiox⟩ := mem_roomRecipients.1 hrec
    obtain ⟨q, hq, hor⟩ := mem_updateConn_cases hmemx
    rcases hor with ⟨heq, hne⟩ | ⟨h1, h2⟩
    · exact hne (congrArg Prod.fst heq.symm)
    · have h3 : stx = { q.2 with connected := false, ioRooms := [] } :=
        congrArg Prod.snd h2
      rw [h3] at hiox
      exact absurd hiox (List.not_mem_nil R)

/-- Witness for the amended C3 at a concrete two-member room. -/
theorem leave_roster_recipients_witness :
    (step (run initState [Event.connect 0, Event.connect 1,
        Event.join 0 (JVal.str "R") (JVal.str "Alice"),
        Event.join 1 (JVal.str "R") (JVal.str "Bob")]).1 (Event.leaveRoom 1)).2 =
      emitToRoom (run initState [Event.connect 0, Event.connect 1,
        Event.join 0 (JVal.str "R") (JVal.str "Alice"),
        Event.join 1 (JVal.str "R") (JVal.str "Bob")]).1.conns "R"
        (Msg.userJoined (removeName ["Alice", "Bob"] "Bob")) :=
  (leave_roster_recipients _ 1
    { currentRoom := some "R", userName := some "Bob", pendingCode := none,
      debounceTimer := none, connected := true, ioRooms := ["R"] }
    "R" "Bob" ["Alice", "Bob"] (by decide) rfl rfl (by decide) (by decide) (by decide)
    rfl (by decide)).1


/-! ### C2: pending edits and leaving -/

/-- C2 counterexample: an edit pending when its author sends an explicit
`leaveRoom` is NOT discarded — the debounce timer survives the leave and the
flush broadcasts the pending content to the remaining room members. -/
theorem pending_edit_broadcast_after_explicit_leave :
    (0, Msg.codeUpdate (some "abc")) ∈
      (run initState [Event.connect 0, Event.connect 1,
        Event.join 0 (JVal.str "R") (JVal.str "Alice"),
        Event.join 1 (JVal.str "R") (JVal.str "Bob"),
        Event.codeChange 1 (JVal.str "R") (JVal.str "abc"),
        Event.leaveRoom 1, Event.timerFire 1]).2 := by decide

/-- C2 amended: only transport disconnect cancels a pending coalesced edit.
On disconnect the handler emits no `codeUpdate`, clears the timer and the
pending slot, and a later timer fire is a no-op; an explicit `leaveRoom`
leaves the armed timer and the pending content untouched (so the edit is
still flushed when the timer fires). -/
theorem disconnect_cancels_pending_edit (s : ServerState) (c : ConnId) (st : ConnState)
    (hc : alookup s.conns c = some st) :
    (∀ d : ConnId, ∀ m : Option String,
      (d, Msg.codeUpdate m) ∉ (step s (Event.disconnect c)).2) ∧
    (st.debounceTimer.isSome = true →
      ∃ st', alookup (step s (Event.disconnect c)).1.conns c = some st' ∧
        st'.debounceTimer = none ∧ st'.pendingCode = none ∧
        step (step s (Event.disconnect c)).1 (Event.timerFire c) =
          ((step s (Event.disconnect c)).1, [])) ∧
    (∃ st2, alookup (step s (Event.leaveRoom c)).1.conns c = some st2 ∧
      st2.debounceTimer = st.debounceTimer ∧ st2.pendingCode = st.pendingCode) := by
  refine ⟨?_, ?_, ?_⟩
  · intro d m hdm
    have hmem : (d, Msg.codeUpdate m) ∈ (handleDisconnect s c).2 := hdm
    rw [handleDisconnect_eq_some s c st hc] at hmem
    by_cases ht : (truthy st.currentRoom && truthy st.userName) = true
    · simp only [ht, if_true] at hmem
      obtain ⟨names, heq⟩ := safeLeaveRoom_snd_all_userJoined _ _ _ _ _ hmem
      exact Msg.noConfusion heq
    · simp only [ht, Bool.false_eq_true, if_false] at hmem
      cases hmem
  · intro htimer
    have hconns : (step s (Event.disconnect c)).1.conns =
        updateConn (updateConn s.conns c (fun cs =>
          { cs with connected := false, ioRooms := [] })) c (fun cs =>
          { cs with debounceTimer := none, pendingCode := none }) := by
      show (handleDisconnect s c).1.conns = _
      rw [handleDisconnect_eq_some s c st hc]
      by_cases ht : (truthy st.currentRoom && truthy st.userName) = true
      · simp only [ht, if_true, htimer, safeLeaveRoom_fst_conns]
      · simp only [ht, Bool.false_eq_true, if_false, htimer, if_true]
    have hlk : alookup (step s (Event.disconnect c)).1.conns c =
        some { st with
                connected := false
                ioRooms := []
                debounceTimer := none
                pendingCode := none } := by
      rw [hconns, alookup_updateConn_self, alookup_updateConn_self, hc]
      rfl
    refine ⟨_, hlk, rfl, rfl, ?_⟩
    show handleTimerFire _ c = _
    rw [handleTimerFire_eq_some _ c _ hlk]
  · show ∃ st2, alookup (handleLeaveRoom s c).1.conns c = some st2 ∧ _ ∧ _
    rw [handleLeaveRoom_eq_some s c st hc]
    by_cases ht : (truthy st.currentRoom && truthy st.userName) = true
    · simp only [ht, if_true, safeLeaveRoom_fst_conns]
      refine ⟨{ st with
                 ioRooms := removeName st.ioRooms (st.currentRoom.getD "")
                 currentRoom := none
                 userName := none }, ?_, rfl, rfl⟩
      rw [alookup_updateConn_self, alookup_updateConn_self, hc]
      rfl
    · simp only [ht, Bool.false_eq_true, if_false]
      refine ⟨{ st with currentRoom := none, userName := none }, ?_, rfl, rfl⟩
      rw [alookup_updateConn_self, hc]
      rfl

/-- Witness for the amended C2: a member with an armed debounce timer
disconnects. -/
theorem disconnect_cancels_pending_edit_witness :
    (∀ d : ConnId, ∀ m : Option String,
      (d, Msg.codeUpdate m) ∉ (step (run initState [Event.connect 0, Event.connect 1,
        Event.join 0 (JVal.str "R") (JVal.str "Alice"),
        Event.join 1 (JVal.str "R") (JVal.str "Bob"),
        Event.codeChange 1 (JVal.str "R") (JVal.str "abc")]).1
          (Event.disconnect 1)).2) ∧
    (some "R" : Option String).isSome = true :=
  ⟨(disconnect_cancels_pending_edit (run initState [Event.connect 0, Event.connect 1,
      Event.join 0 (JVal.str "R") (JVal.str "Alice"),
      Event.join 1 (JVal.str "R") (JVal.str "Bob"),
      Event.codeChange 1 (JVal.str "R") (JVal.str "abc")]).1 1
    { currentRoom := some "R", userName := some "Bob", pendingCode := some "abc",
      debounceTimer := some "R", connected := true, ioRooms := ["R"] }
    (by decide)).1, rfl⟩


/-! ### C8: switching rooms, and name-keyed roster identity -/

/-- C8 counterexample: participant identity is keyed by name, so the same
name can simultaneously be in the rosters of two different rooms (two
distinct connections named "Bob"), while connection 0 itself is in room "A":
its name is counted in both rooms' rosters. -/
theorem same_name_counted_in_two_rooms :
    alookup (run initState [Event.connect 0, Event.connect 1,
      Event.join 0 (JVal.str "A") (JVal.str "Bob"),
      Event.join 1 (JVal.str "B") (JVal.str "Bob")]).1.rooms "A" = some ["Bob"] ∧
    alookup (run initState [Event.connect 0, Event.connect 1,
      Event.join 0 (JVal.str "A") (JVal.str "Bob"),
      Event.join 1 (JVal.str "B") (JVal.str "Bob")]).1.rooms "B" = some ["Bob"] ∧
    (alookup (run initState [Event.connect 0, Event.connect 1,
      Event.join 0 (JVal.str "A") (JVal.str "Bob"),
      Event.join 1 (JVal.str "B") (JVal.str "Bob")]).1.conns 0).map
        ConnState.userName = some (some "Bob") ∧
    (alookup (run initState [Event.connect 0, Event.connect 1,
      Event.join 0 (JVal.str "A") (JVal.str "Bob"),
      Event.join 1 (JVal.str "B") (JVal.str "Bob")]).1.conns 0).map
        ConnState.currentRoom = some (some "A") := by
  refine ⟨?_, ?_, ?_, ?_⟩ <;> decide

/-- C8 amended: a valid join to room B by a connection currently in room A
first removes the connection's name from A's roster (broadcasting A's
updated roster to room A, provided A is still in the Directory) and only
then adds the name to B's roster and broadcasts it; afterwards the
connection's currentRoom field is exactly B.  The per-name uniqueness only
holds per connection field, not across rosters: distinct connections sharing
one name can put that name in several rosters at once. -/
theorem join_switches_room (s : ServerState) (c : ConnId) (st : ConnState)
    (A uA B uB : String) (rosterA : List String) (rB : Option (List String))
    (hc : alookup s.conns c = some st) (hcr : st.currentRoom = some A)
    (hun : st.userName = some uA) (hA : strEmpty A = false)
    (hroomA : alookup s.rooms A = some rosterA)
    (hB : trimNonempty B = true) (huB : trimNonempty uB = true)
    (hAB : A ≠ B) (hrB : alookup s.rooms B = rB) :
    (step s (Event.join c (JVal.str B) (JVal.str uB))).2 =
      emitToRoom s.conns A (Msg.userJoined (removeName rosterA uA)) ++
      emitToRoom (step s (Event.join c (JVal.str B) (JVal.str uB))).1.conns B
        (Msg.userJoined (addName (rB.getD []) uB)) ∧
    alookup (step s (Event.join c (JVal.str B) (JVal.str uB))).1.rooms B =
      some (addName (rB.getD []) uB) ∧
    alookup (step s (Event.join c (JVal.str B) (JVal.str uB))).1.rooms A =
      (if removeName rosterA uA = [] then none else some (removeName rosterA uA)) ∧
    (∃ st', alookup (step s (Event.join c (JVal.str B) (JVal.str uB))).1.conns c =
      some st' ∧ st'.currentRoom = some B ∧ st'.userName = some uB) := by
  have hR1 : (safeLeaveRoom s (some A) (some uA)).1.rooms =
      (if removeName rosterA uA = [] then aremove s.rooms A
       else aset s.rooms A (removeName rosterA uA)) := by
    rw [safeLeaveRoom_fst_rooms]
    simp only [leaveRooms, hA, Bool.false_eq_true, if_false, hroomA]
  have halB : alookup (safeLeaveRoom s (some A) (some uA)).1.rooms B = rB := by
    rw [hR1]
    by_cases hn : removeName rosterA uA = []
    · rw [if_pos hn, alookup_aremove_ne _ _ _ (Ne.symm hAB), hrB]
    · rw [if_neg hn, alookup_aset_ne _ _ _ _ (Ne.symm hAB), hrB]
  have halA : alookup (safeLeaveRoom s (some A) (some uA)).1.rooms A =
      (if removeName rosterA uA = [] then none else some (removeName rosterA uA)) := by
    rw [hR1]
    by_cases hn : removeName rosterA uA = []
    · rw [if_pos hn, if_pos hn, alookup_aremove_self]
    · rw [if_neg hn, if_neg hn, alookup_aset_self]
  have hstep : step s (Event.join c (JVal.str B) (JVal.str uB)) = handleJoin s c
      (JVal.str B) (JVal.str uB) := rfl
  rw [hstep, handleJoin_eq_some s c _ _ st hc]
  simp only [hB, huB, Bool.not_true, Bool.false_eq_true, if_false, hcr, hun, truthy,
    hA, Bool.not_false, if_true, Option.getD_some, safeLeaveRoom_fst_conns, halB]
  refine ⟨?_, ?_, ?_, ?_⟩
  · rw [safeLeaveRoom_snd s A uA rosterA hA hroomA]
  · rw [alookup_aset_self]
  · rw [alookup_aset_ne _ _ _ _ hAB, halA]
  · refine ⟨{ st with
               ioRooms := addName (removeName st.ioRooms A) B
               currentRoom := some B
               userName := some uB }, ?_, rfl, rfl⟩
    rw [alookup_updateConn_self, alookup_updateConn_self, hc]
    rfl

/-- Witness for the amended C8: Bob moves from room "A" (shared with Alice)
to room "B". -/
theorem join_switches_room_witness :
    alookup (step (run initState [Event.connect 0, Event.connect 1,
        Event.join 0 (JVal.str "A") (JVal.str "Alice"),
        Event.join 1 (JVal.str "A") (JVal.str "Bob")]).1
      (Event.join 1 (JVal.str "B") (JVal.str "Bob"))).1.rooms "B" =
      some ["Bob"] :=
  ((join_switches_room (run initState [Event.connect 0, Event.connect 1,
      Event.join 0 (JVal.str "A") (JVal.str "Alice"),
      Event.join 1 (JVal.str "A") (JVal.str "Bob")]).1 1
    { currentRoom := some "A", userName := some "Bob", pendingCode := none,
      debounceTimer := none, connected := true, ioRooms := ["A"] }
    "A" "Bob" "B" "Bob" ["Alice", "Bob"] none
    (by decide) rfl rfl (by decide) (by decide) (by decide) (by decide)
    (by decide) (by decide)).2.1).trans (by decide)


/-! ### C6: malformed payloads on codeChange / typing / languageChange -/

/-- `typeof x === "string"`. -/
def isStr : JVal → Bool
  | JVal.str _ => true
  | _ => false

/-- `typeof x === "string" && x` (non-empty string, no trimming). -/
def nonemptyStr : JVal → Bool
  | JVal.str s => !strEmpty s
  | _ => false

/-- C6 counterexample: a `typing` event with a valid roomId but a missing
userName is NOT dropped — the malformed value is broadcast to the other
members of the room. -/
theorem malformed_typing_broadcast_anyway :
    (0, Msg.userTyping JVal.undef) ∈
      (run initState [Event.connect 0, Event.connect 1,
        Event.join 0 (JVal.str "R") (JVal.str "Alice"),
        Event.join 1 (JVal.str "R") (JVal.str "Bob"),
        Event.typing 1 (JVal.str "R") JVal.undef]).2 := by decide

/-- C6 amended: `codeChange` and `languageChange` silently drop malformed
payloads (no error to the sender, no broadcast, no state change), and a
`typing` event whose roomId is not a string reaches nobody; but `typing`
validates nothing else — with a string roomId it is broadcast unchanged to
the other sockets in that room, whatever the userName field holds. -/
theorem malformed_payload_policy (s : ServerState) (c : ConnId) (rj cd un lg : JVal) :
    (nonemptyStr rj = false → step s (Event.codeChange c rj cd) = (s, [])) ∧
    (isStr cd = false → step s (Event.codeChange c rj cd) = (s, [])) ∧
    (isStr rj = false ∨ isStr lg = false →
      step s (Event.languageChange c rj lg) = (s, [])) ∧
    (isStr rj = false → step s (Event.typing c rj un) = (s, [])) ∧
    ((alookup s.conns c).isSome = true → ∀ r : String,
      step s (Event.typing c (JVal.str r) un) =
        (s, emitToRoomExcept s.conns r c (Msg.userTyping un))) := by
  refine ⟨?_, ?_, ?_, ?_, ?_⟩
  · intro h
    show handleCodeChange s c rj cd = (s, [])
    cases hca : alookup s.conns c with
    | none => exact handleCodeChange_eq_none s c rj cd hca
    | some st =>
      rw [handleCodeChange_eq_some s c rj cd st hca]
      cases rj with
      | str rr =>
        have he : strEmpty rr = true := by
          simpa [nonemptyStr] using h
        simp only [he, if_true]
      | undef => rfl
      | other => rfl
  · intro h
    show handleCodeChange s c rj cd = (s, [])
    cases hca : alookup s.conns c with
    | none => exact handleCodeChange_eq_none s c rj cd hca
    | some st =>
      rw [handleCodeChange_eq_some s c rj cd st hca]
      cases rj with
      | str rr =>
        cases he : strEmpty rr with
        | true => simp only [he, if_true]
        | false =>
          cases cd with
          | str cc => simp [isStr] at h
          | undef => simp only [he, Bool.false_eq_true, if_false]
          | other => simp only [he, Bool.false_eq_true, if_false]
      | undef => rfl
      | other => rfl
  · intro h
    show handleLanguageChange s c rj lg = (s, [])
    cases hca : alookup s.conns c with
    | none => exact handleLanguageChange_eq_none s c rj lg hca
    | some st =>
      rw [handleLanguageChange_eq_some s c rj lg st hca]
      cases rj with
      | str a =>
        cases lg with
        | str b =>
          rcases h with h | h <;> simp [isStr] at h
        | undef => rfl
        | other => rfl
      | undef => cases lg <;> rfl
      | other => cases lg <;> rfl
  · intro h
    show handleTyping s c rj un = (s, [])
    cases hca : alookup s.conns c with
    | none => exact handleTyping_eq_none s c rj un hca
    | some st =>
      rw [handleTyping_eq_some s c rj un st hca]
      cases rj with
      | str a => simp [isStr] at h
      | undef => rfl
      | other => rfl
  · intro h r
    obtain ⟨st, hst⟩ := Option.isSome_iff_exists.1 h
    exact handleTyping_eq_some s c (JVal.str r) un st hst

/-- Witness for the amended C6: the concrete two-member room, typing with a
missing userName from a member. -/
theorem malformed_payload_policy_witness :
    step (run initState [Event.connect 0, Event.connect 1,
        Event.join 0 (JVal.str "R") (JVal.str "Alice"),
        Event.join 1 (JVal.str "R") (JVal.str "Bob")]).1
      (Event.typing 1 (JVal.str "R") JVal.undef) =
    ((run initState [Event.connect 0, Event.connect 1,
        Event.join 0 (JVal.str "R") (JVal.str "Alice"),
        Event.join 1 (JVal.str "R") (JVal.str "Bob")]).1,
     emitToRoomExcept (run initState [Event.connect 0, Event.connect 1,
        Event.join 0 (JVal.str "R") (JVal.str "Alice"),
        Event.join 1 (JVal.str "R") (JVal.str "Bob")]).1.conns "R" 1
       (Msg.userTyping JVal.undef)) :=
  (malformed_payload_policy (run initState [Event.connect 0, Event.connect 1,
      Event.join 0 (JVal.str "R") (JVal.str "Alice"),
      Event.join 1 (JVal.str "R") (JVal.str "Bob")]).1 1
    (JVal.str "R") JVal.undef JVal.undef JVal.undef).2.2.2.2 (by decide) "R"


/-! ### C1: debounce coalescing -/

theorem updateConn_comp (l : List (ConnId × ConnState)) (c : ConnId)
    (f g : ConnState → ConnState) :
    updateConn (updateConn l c f) c g = updateConn l c (fun cs => g (f cs)) := by
  induction l with
  | nil => rfl
  | cons p t ih =>
    obtain ⟨k, v⟩ := p
    by_cases hk : k = c
    · rw [updateConn, if_pos hk, updateConn, if_pos hk, updateConn, if_pos hk, ih]
    · rw [updateConn, if_neg hk, updateConn, if_neg hk, updateConn, if_neg hk, ih]

theorem run_append (s : ServerState) (es1 es2 : List Event) :
    run s (es1 ++ es2) =
      ((run (run s es1).1 es2).1, (run s es1).2 ++ (run (run s es1).1 es2).2) := by
  induction es1 generalizing s with
  | nil => simp [run]
  | cons e t ih =>
    simp only [List.cons_append, run, List.append_eq, ih (step s e).1, List.append_assoc]

theorem step_codeChange_arm (s : ServerState) (c : ConnId) (st : ConnState)
    (R cd : String) (hc : alookup s.conns c = some st)
    (hcr : st.currentRoom = some R) (hR : strEmpty R = false) :
    step s (Event.codeChange c (JVal.str R) (JVal.str cd)) =
      ({ s with conns := (updateConn s.conns c (fun cs =>
          { cs with pendingCode := some cd, debounceTimer := some R })) }, []) := by
  show handleCodeChange s c (JVal.str R) (JVal.str cd) = _
  rw [handleCodeChange_eq_some s c _ _ st hc]
  simp only [hR, Bool.false_eq_true, if_false, hcr]
  simp only [if_true]

/-- The events of a burst of codeChange messages followed by the debounce
timeout elapsing. -/
def burstEvents (c : ConnId) (R : String) (codes0 : List String) (L : String) :
    List Event :=
  (codes0 ++ [L]).map (fun cd => Event.codeChange c (JVal.str R) (JVal.str cd)) ++
    [Event.timerFire c]

theorem run_burst (c : ConnId) (R L : String) (hR : strEmpty R = false)
    (codes0 : List String) :
    ∀ (s : ServerState) (st : ConnState), alookup s.conns c = some st →
      st.currentRoom = some R →
      run s ((codes0 ++ [L]).map
          (fun cd => Event.codeChange c (JVal.str R) (JVal.str cd))) =
        ({ s with conns := (updateConn s.conns c (fun cs =>
            { cs with pendingCode := some L, debounceTimer := some R })) }, []) := by
  induction codes0 with
  | nil =>
    intro s st hc hcr
    simp only [List.nil_append, List.map_cons, List.map_nil, run,
      step_codeChange_arm s c st R L hc hcr hR]
  | cons c0 t ih =>
    intro s st hc hcr
    simp only [List.cons_append, List.map_cons, run, List.append_eq,
      step_codeChange_arm s c st R c0 hc hcr hR]
    have hc1 : alookup (updateConn s.conns c (fun cs =>
        { cs with pendingCode := some c0, debounceTimer := some R })) c =
        some { st with pendingCode := some c0, debounceTimer := some R } := by
      rw [alookup_updateConn_self, hc]
      rfl
    have hcr1 : ({ st with pendingCode := some c0, debounceTimer := some R } : ConnState).currentRoom = some R := hcr
    rw [ih { s with conns := (updateConn s.conns c (fun cs =>
        { cs with pendingCode := some c0, debounceTimer := some R })) } _ hc1 hcr1]
    rw [updateConn_comp]
    simp only [List.append_nil]

theorem emitToRoomExcept_updateConn (l : List (ConnId × ConnState)) (c : ConnId)
    (f : ConnState → ConnState)
    (hf : ∀ cs, (f cs).connected = cs.connected ∧ (f cs).ioRooms = cs.ioRooms)
    (r : String) (sender : ConnId) (m : Msg) :
    emitToRoomExcept (updateConn l c f) r sender m = emitToRoomExcept l r sender m := by
  unfold emitToRoomExcept
  rw [roomRecipients_updateConn l c f hf r]

/-- C1: a burst of N ≥ 1 codeChange events from a member of room R, each
arriving before the pending debounce window elapses, produces — once the
timer finally fires — exactly one `codeUpdate` broadcast, carrying the last
edit's content, delivered to every other connection in room R and never to
the sender. -/
theorem debounced_burst_single_broadcast (s : ServerState) (c : ConnId) (st : ConnState)
    (R : String) (codes0 : List String) (L : String)
    (hc : alookup s.conns c = some st) (hcr : st.currentRoom = some R)
    (hR : strEmpty R = false) :
    (run s (burstEvents c R codes0 L)).2 =
      emitToRoomExcept s.conns R c (Msg.codeUpdate (some L)) ∧
    (∀ m : Msg, (c, m) ∉ (run s (burstEvents c R codes0 L)).2) ∧
    (∀ d : ConnId, d ∈ roomRecipients s.conns R → d ≠ c →
      (d, Msg.codeUpdate (some L)) ∈ (run s (burstEvents c R codes0 L)).2) := by
  have hfpres : ∀ cs : ConnState,
      (({ cs with pendingCode := some L, debounceTimer := some R } :
        ConnState)).connected = cs.connected ∧
      (({ cs with pendingCode := some L, debounceTimer := some R } :
        ConnState)).ioRooms = cs.ioRooms := fun cs => ⟨rfl, rfl⟩
  have hout : (run s (burstEvents c R codes0 L)).2 =
      emitToRoomExcept s.conns R c (Msg.codeUpdate (some L)) := by
    unfold burstEvents
    rw [run_append, run_burst c R L hR codes0 s st hc hcr]
    have hlk : alookup (updateConn s.conns c (fun cs =>
        { cs with pendingCode := some L, debounceTimer := some R })) c =
        some { st with pendingCode := some L, debounceTimer := some R } := by
      rw [alookup_updateConn_self, hc]
      rfl
    have hfire : step { s with conns := (updateConn s.conns c (fun cs =>
        { cs with pendingCode := some L, debounceTimer := some R })) }
        (Event.timerFire c) =
        ({ rooms := s.rooms, conns := (updateConn (updateConn s.conns c (fun cs =>
            { cs with pendingCode := some L, debounceTimer := some R })) c (fun cs =>
            { cs with pendingCode := none, debounceTimer := none })) },
         emitToRoomExcept (updateConn s.conns c (fun cs =>
            { cs with pendingCode := some L, debounceTimer := some R })) R c
           (Msg.codeUpdate (some L))) := by
      show handleTimerFire _ c = _
      rw [handleTimerFire_eq_some _ c _ hlk]
    simp only [run, hfire, List.nil_append, List.append_nil,
      emitToRoomExcept_updateConn _ c _ hfpres]
  refine ⟨hout, ?_, ?_⟩
  · intro m hm
    rw [hout] at hm
    exact (mem_emitToRoomExcept.1 hm).2.1 rfl
  · intro d hd hdc
    rw [hout]
    exact mem_emitToRoomExcept.2 ⟨hd, hdc, rfl⟩

/-- Witness for C1: Alice bursts "a", "ab", "abc" and Bob receives exactly
one codeUpdate "abc". -/
theorem debounced_burst_single_broadcast_witness :
    (run (run initState [Event.connect 0, Event.connect 1,
        Event.join 0 (JVal.str "R") (JVal.str "Alice"),
        Event.join 1 (JVal.str "R") (JVal.str "Bob")]).1
      (burstEvents 0 "R" ["a", "ab"] "abc")).2 =
      emitToRoomExcept (run initState [Event.connect 0, Event.connect 1,
        Event.join 0 (JVal.str "R") (JVal.str "Alice"),
        Event.join 1 (JVal.str "R") (JVal.str "Bob")]).1.conns "R" 0
        (Msg.codeUpdate (some "abc")) :=
  (debounced_burst_single_broadcast (run initState [Event.connect 0, Event.connect 1,
      Event.join 0 (JVal.str "R") (JVal.str "Alice"),
      Event.join 1 (JVal.str "R") (JVal.str "Bob")]).1 0
    { currentRoom := some "R", userName := some "Alice", pendingCode := none,
      debounceTimer := none, connected := true, ioRooms := ["R"] }
    "R" ["a", "ab"] "abc" (by decide) rfl (by decide)).1


/-! ### C5: connections that never join -/

/-- The connection an event originates from. -/
def eventConn : Event → ConnId
  | Event.connect c => c
  | Event.join c _ _ => c
  | Event.leaveRoom c => c
  | Event.codeChange c _ _ => c
  | Event.typing c _ _ => c
  | Event.languageChange c _ _ => c
  | Event.timerFire c => c
  | Event.disconnect c => c

theorem mem_updateConn_other {l : List (ConnId × ConnState)} {d : ConnId}
    {f : ConnState → ConnState} {x : ConnId} {st : ConnState} (hne : x ≠ d)
    (h : (x, st) ∈ updateConn l d f) : (x, st) ∈ l := by
  obtain ⟨q, hq, hor⟩ := mem_updateConn_cases h
  rcases hor with ⟨heq, _⟩ | ⟨h1, h2⟩
  · rw [heq]
    exact hq
  · exact absurd ((congrArg Prod.fst h2).trans h1) hne

/-- Every handler mutates only the acting connection's entry: an entry for a
different connection in the post-state was already in the pre-state. -/
theorem step_conns_other (s : ServerState) (e : Event) (x : ConnId) (st : ConnState)
    (hne : x ≠ eventConn e) (h : (x, st) ∈ (step s e).1.conns) : (x, st) ∈ s.conns := by
  cases e with
  | connect d =>
    rcases mem_setConn h with hin | heq
    · exact hin
    · exact absurd (congrArg Prod.fst heq) hne
  | join d a b =>
    have hmem : (x, st) ∈ (handleJoin s d a b).1.conns := h
    cases hcd : alookup s.conns d with
    | none =>
      rw [handleJoin_eq_none s d a b hcd] at hmem
      exact hmem
    | some std =>
      rw [handleJoin_eq_some s d a b std hcd] at hmem
      cases a with
      | str rid =>
        cases hr : trimNonempty rid with
        | false =>
          simpa only [hr, Bool.not_false, if_true] using hmem
        | true =>
          cases b with
          | str uname =>
            cases hu : trimNonempty uname with
            | false =>
              simpa only [hr, hu, Bool.not_true, Bool.not_false, Bool.false_eq_true,
                if_false, if_true] using hmem
            | true =>
              cases ht : truthy std.currentRoom with
              | true =>
                simp only [hr, hu, Bool.not_true, Bool.false_eq_true, if_false, ht,
                  if_true] at hmem
                rw [safeLeaveRoom_fst_conns] at hmem
                exact mem_updateConn_other hne (mem_updateConn_other hne hmem)
              | false =>
                simp only [hr, hu, Bool.not_true, Bool.false_eq_true, if_false, ht,
                  if_true] at hmem
                exact mem_updateConn_other hne hmem
          | undef =>
            simpa only [hr, Bool.not_true, Bool.false_eq_true, if_false] using hmem
          | other =>
            simpa only [hr, Bool.not_true, Bool.false_eq_true, if_false] using hmem
      | undef => exact hmem
      | other => exact hmem
  | leaveRoom d =>
    have hmem : (x, st) ∈ (handleLeaveRoom s d).1.conns := h
    cases hcd : alookup s.conns d with
    | none =>
      rw [handleLeaveRoom_eq_none s d hcd] at hmem
      exact hmem
    | some std =>
      rw [handleLeaveRoom_eq_some s d std hcd] at hmem
      cases ht : (truthy std.currentRoom && truthy std.userName) with
      | true =>
        simp only [ht, if_true] at hmem
        rw [safeLeaveRoom_fst_conns] at hmem
        exact mem_updateConn_other hne (mem_updateConn_other hne hmem)
      | false =>
        simp only [ht, Bool.false_eq_true, if_false] at hmem
        exact mem_updateConn_other hne hmem
  | codeChange d a b =>
    have hmem : (x, st) ∈ (handleCodeChange s d a b).1.conns := h
    cases hcd : alookup s.conns d with
    | none =>
      rw [handleCodeChange_eq_none s d a b hcd] at hmem
      exact hmem
    | some std =>
      rw [handleCodeChange_eq_some s d a b std hcd] at hmem
      cases a with
      | str r =>
        cases he : strEmpty r with
        | true => simpa only [he, if_true] using hmem
        | false =>
          cases b with
          | str cd =>
            by_cases hm : std.currentRoom = some r
            · simp only [he, Bool.false_eq_true, if_false, hm, if_true] at hmem
              exact mem_updateConn_other hne hmem
            · simpa only [he, Bool.false_eq_true, if_false, hm] using hmem
          | undef => simpa only [he, Bool.false_eq_true, if_false] using hmem
          | other => simpa only [he, Bool.false_eq_true, if_false] using hmem
      | undef => exact hmem
      | other => exact hmem
  | typing d a b =>
    rw [show (step s (Event.typing d a b)).1 = s from handleTyping_fst s d a b] at h
    exact h
  | languageChange d a b =>
    rw [show (step s (Event.languageChange d a b)).1 = s from
      handleLanguageChange_fst s d a b] at h
    exact h
  | timerFire d =>
    have hmem : (x, st) ∈ (handleTimerFire s d).1.conns := h
    cases hcd : alookup s.conns d with
    | none =>
      rw [handleTimerFire_eq_none s d hcd] at hmem
      exact hmem
    | some std =>
      rw [handleTimerFire_eq_some s d std hcd] at hmem
      cases hdt : std.debounceTimer with
      | none =>
        rw [hdt] at hmem
        exact hmem
      | some r =>
        rw [hdt] at hmem
        exact mem_updateConn_other hne hmem
  | disconnect d =>
    have hmem : (x, st) ∈ (handleDisconnect s d).1.conns := h
    cases hcd : alookup s.conns d with
    | none =>
      rw [handleDisconnect_eq_none s d hcd] at hmem
      exact hmem
    | some std =>
      rw [handleDisconnect_eq_some s d std hcd] at hmem
      cases ht : (truthy std.currentRoom && truthy std.userName) with
      | true =>
        cases hd : std.debounceTimer.isSome with
        | true =>
          simp only [ht, if_true, hd] at hmem
          rw [safeLeaveRoom_fst_conns] at hmem
          exact mem_updateConn_other hne (mem_updateConn_other hne hmem)
        | false =>
          simp only [ht, if_true, hd, Bool.false_eq_true, if_false] at hmem
          rw [safeLeaveRoom_fst_conns] at hmem
          exact mem_updateConn_other hne hmem
      | false =>
        cases hd : std.debounceTimer.isSome with
        | true =>
          simp only [ht, Bool.false_eq_true, if_false, hd, if_true] at hmem
          exact mem_updateConn_other hne (mem_updateConn_other hne hmem)
        | false =>
          simp only [ht, Bool.false_eq_true, if_false, hd] at hmem
          exact mem_updateConn_other hne hmem


theorem safeLeaveRoom_snd_shape (s : ServerState) (ro un : Option String) :
    (safeLeaveRoom s ro un).2 = [] ∨
    ∃ r m, (safeLeaveRoom s ro un).2 = emitToRoom s.conns r m := by
  cases ro with
  | none => exact Or.inl rfl
  | some r =>
    cases he : strEmpty r with
    | true => exact Or.inl (by simp only [safeLeaveRoom, he, if_true])
    | false =>
      cases hl : alookup s.rooms r with
      | none =>
        exact Or.inl (by simp only [safeLeaveRoom, he, Bool.false_eq_true, if_false, hl])
      | some names =>
        cases un with
        | none =>
          refine Or.inr ⟨r, Msg.userJoined names, ?_⟩
          simp only [safeLeaveRoom, he, Bool.false_eq_true, if_false, hl]
        | some u =>
          refine Or.inr ⟨r, Msg.userJoined (removeName names u), ?_⟩
          simp only [safeLeaveRoom, he, Bool.false_eq_true, if_false, hl]

/-- Every delivery a handler makes goes either back to the acting connection
or to a connection that already was, in the pre-state, connected and inside
some socket.io room. -/
theorem step_delivery_targets (s : ServerState) (e : Event) (x : ConnId) (m : Msg)
    (hm : (x, m) ∈ (step s e).2) :
    x = eventConn e ∨
    ∃ r st, (x, st) ∈ s.conns ∧ st.connected = true ∧ r ∈ st.ioRooms := by
  cases e with
  | connect d => cases hm
  | join d a b =>
    have hmem : (x, m) ∈ (handleJoin s d a b).2 := hm
    cases hcd : alookup s.conns d with
    | none =>
      rw [handleJoin_eq_none s d a b hcd] at hmem
      cases hmem
    | some std =>
      rw [handleJoin_eq_some s d a b std hcd] at hmem
      cases a with
      | str rid =>
        cases hr : trimNonempty rid with
        | false =>
          simp only [hr, Bool.not_false, if_true] at hmem
          rcases List.mem_singleton.1 hmem with heq
          exact Or.inl (congrArg Prod.fst heq)
        | true =>
          cases b with
          | str uname =>
            cases hu : trimNonempty uname with
            | false =>
              simp only [hr, hu, Bool.not_true, Bool.not_false, Bool.false_eq_true,
                if_false, if_true] at hmem
              exact Or.inl (congrArg Prod.fst (List.mem_singleton.1 hmem))
            | true =>
              cases ht : truthy std.currentRoom with
              | true =>
                simp only [hr, hu, Bool.not_true, Bool.false_eq_true, if_false, ht,
                  if_true] at hmem
                rcases List.mem_append.1 hmem with h1 | h2
                · rcases safeLeaveRoom_snd_shape s std.currentRoom std.userName with
                    hsh | ⟨r', m', hsh⟩
                  · rw [hsh] at h1
                    cases h1
                  · rw [hsh] at h1
                    obtain ⟨hrec, _⟩ := mem_emitToRoom.1 h1
                    obtain ⟨st', hmem', hco', hio'⟩ := mem_roomRecipients.1 hrec
                    exact Or.inr ⟨r', st', hmem', hco', hio'⟩
                · by_cases hxd : x = d
                  · exact Or.inl hxd
                  · rw [safeLeaveRoom_fst_conns] at h2
                    obtain ⟨hrec, _⟩ := mem_emitToRoom.1 h2
                    obtain ⟨st', hmem', hco', hio'⟩ := mem_roomRecipients.1 hrec
                    exact Or.inr ⟨rid, st',
                      mem_updateConn_other hxd (mem_updateConn_other hxd hmem'),
                      hco', hio'⟩
              | false =>
                simp only [hr, hu, Bool.not_true, Bool.false_eq_true, if_false, ht,
                  if_true] at hmem
                rcases List.mem_append.1 hmem with h1 | h2
                · cases h1
                · by_cases hxd : x = d
                  · exact Or.inl hxd
                  · obtain ⟨hrec, _⟩ := mem_emitToRoom.1 h2
                    obtain ⟨st', hmem', hco', hio'⟩ := mem_roomRecipients.1 hrec
                    exact Or.inr ⟨rid, st', mem_updateConn_other hxd hmem', hco', hio'⟩
          | undef =>
            simp only [hr, Bool.not_true, Bool.false_eq_true, if_false] at hmem
            exact Or.inl (congrArg Prod.fst (List.mem_singleton.1 hmem))
          | other =>
            simp only [hr, Bool.not_true, Bool.false_eq_true, if_false] at hmem
            exact Or.inl (congrArg Prod.fst (List.mem_singleton.1 hmem))
      | undef => exact Or.inl (congrArg Prod.fst (List.mem_singleton.1 hmem))
      | other => exact Or.inl (congrArg Prod.fst (List.mem_singleton.1 hmem))
  | leaveRoom d =>
    have hmem : (x, m) ∈ (handleLeaveRoom s d).2 := hm
    cases hcd : alookup s.conns d with
    | none =>
      rw [handleLeaveRoom_eq_none s d hcd] at hmem
      cases hmem
    | some std =>
      rw [handleLeaveRoom_eq_some s d std hcd] at hmem
      cases ht : (truthy std.currentRoom && truthy std.userName) with
      | true =>
        simp only [ht, if_true] at hmem
        rcases safeLeaveRoom_snd_shape s std.currentRoom std.userName with
          hsh | ⟨r', m', hsh⟩
        · rw [hsh] at hmem
          cases hmem
        · rw [hsh] at hmem
          obtain ⟨hrec, _⟩ := mem_emitToRoom.1 hmem
          obtain ⟨st', hmem', hco', hio'⟩ := mem_roomRecipients.1 hrec
          exact Or.inr ⟨r', st', hmem', hco', hio'⟩
      | false =>
        simp only [ht, Bool.false_eq_true, if_false] at hmem
        cases hmem
  | codeChange d a b =>
    have hmem : (x, m) ∈ (handleCodeChange s d a b).2 := hm
    cases hcd : alookup s.conns d with
    | none =>
      rw [handleCodeChange_eq_none s d a b hcd] at hmem
      cases hmem
    | some std =>
      rw [handleCodeChange_eq_some s d a b std hcd] at hmem
      cases a with
      | str r =>
        cases he : strEmpty r with
        | true =>
          simp only [he, if_true] at hmem
          cases hmem
        | false =>
          cases b with
          | str cd =>
            by_cases hcur : std.currentRoom = some r
            · simp only [he, Bool.false_eq_true, if_false, hcur, if_true] at hmem
              cases hmem
            · simp only [he, Bool.false_eq_true, if_false, hcur] at hmem
              cases hmem
          | undef =>
            simp only [he, Bool.false_eq_true, if_false] at hmem
            cases hmem
          | other =>
            simp only [he, Bool.false_eq_true, if_false] at hmem
            cases hmem
      | undef => cases hmem
      | other => cases hmem
  | typing d a b =>
    have hmem : (x, m) ∈ (handleTyping s d a b).2 := hm
    cases hcd : alookup s.conns d with
    | none =>
      rw [handleTyping_eq_none s d a b hcd] at hmem
      cases hmem
    | some std =>
      rw [handleTyping_eq_some s d a b std hcd] at hmem
      cases a with
      | str r =>
        obtain ⟨hrec, _, _⟩ := mem_emitToRoomExcept.1 hmem
        obtain ⟨st', hmem', hco', hio'⟩ := mem_roomRecipients.1 hrec
        exact Or.inr ⟨r, st', hmem', hco', hio'⟩
      | undef => cases hmem
      | other => cases hmem
  | languageChange d a b =>
    have hmem : (x, m) ∈ (handleLanguageChange s d a b).2 := hm
    cases hcd : alookup s.conns d with
    | none =>
      rw [handleLanguageChange_eq_none s d a b hcd] at hmem
      cases hmem
    | some std =>
      rw [handleLanguageChange_eq_some s d a b std hcd] at hmem
      cases a with
      | str r =>
        cases b with
        | str lg =>
          obtain ⟨hrec, _⟩ := mem_emitToRoom.1 hmem
          obtain ⟨st', hmem', hco', hio'⟩ := mem_roomRecipients.1 hrec
          exact Or.inr ⟨r, st', hmem', hco', hio'⟩
        | undef => cases hmem
        | other => cases hmem
      | undef => cases hmem
      | other => cases hmem
  | timerFire d =>
    have hmem : (x, m) ∈ (handleTimerFire s d).2 := hm
    cases hcd : alookup s.conns d with
    | none =>
      rw [handleTimerFire_eq_none s d hcd] at hmem
      cases hmem
    | some std =>
      rw [handleTimerFire_eq_some s d std hcd] at hmem
      cases hdt : std.debounceTimer with
      | none =>
        rw [hdt] at hmem
        cases hmem
      | some r =>
        rw [hdt] at hmem
        obtain ⟨hrec, _, _⟩ := mem_emitToRoomExcept.1 hmem
        obtain ⟨st', hmem', hco', hio'⟩ := mem_roomRecipients.1 hrec
        exact Or.inr ⟨r, st', hmem', hco', hio'⟩
  | disconnect d =>
    have hmem : (x, m) ∈ (handleDisconnect s d).2 := hm
    cases hcd : alookup s.conns d with
    | none =>
      rw [handleDisconnect_eq_none s d hcd] at hmem
      cases hmem
    | some std =>
      rw [handleDisconnect_eq_some s d std hcd] at hmem
      cases ht : (truthy std.currentRoom && truthy std.userName) with
      | true =>
        simp only [ht, if_true] at hmem
        rcases safeLeaveRoom_snd_shape { s with conns := (updateConn s.conns d (fun cs =>
            { cs with connected := false, ioRooms := [] })) }
            std.currentRoom std.userName with hsh | ⟨r', m', hsh⟩
        · rw [hsh] at hmem
          cases hmem
        · rw [hsh] at hmem
          obtain ⟨hrec, _⟩ := mem_emitToRoom.1 hmem
          obtain ⟨st', hmem', hco', hio'⟩ := mem_roomRecipients.1 hrec
          by_cases hxd : x = d
          · exact Or.inl hxd
          · exact Or.inr ⟨r', st', mem_updateConn_other hxd hmem', hco', hio'⟩
      | false =>
        simp only [ht, Bool.false_eq_true, if_false] at hmem
        cases hmem


/-- A connection state holding no server-side information: both identity
fields null, no pending edit, no armed timer, member of no socket.io room. -/
def cleanSt (cs : ConnState) : Prop :=
  cs.currentRoom = none ∧ cs.userName = none ∧ cs.pendingCode = none ∧
    cs.debounceTimer = none ∧ cs.ioRooms = []

theorem cleanConn_updateConn_self {c : ConnId} {l : List (ConnId × ConnState)}
    {f : ConnState → ConnState}
    (h : ∀ st, (c, st) ∈ l → cleanSt st) (hf : ∀ cs, cleanSt cs → cleanSt (f cs)) :
    ∀ st, (c, st) ∈ updateConn l c f → cleanSt st := by
  intro st hst
  obtain ⟨q, hq, hor⟩ := mem_updateConn_cases hst
  rcases hor with ⟨heq, hne⟩ | ⟨h1, h2⟩
  · exact absurd (congrArg Prod.fst heq).symm hne
  · have hq2 : (c, q.2) ∈ l := by
      rw [← h1, Prod.mk.eta]
      exact hq
    have hst2 : st = f q.2 := congrArg Prod.snd h2
    rw [hst2]
    exact hf q.2 (h q.2 hq2)

theorem cleanConn_not_recipient {c : ConnId} {conns : List (ConnId × ConnState)}
    (h : ∀ st, (c, st) ∈ conns → cleanSt st) (r : String) :
    c ∉ roomRecipients conns r := by
  intro hc
  obtain ⟨st, hmem, hco, hio⟩ := mem_roomRecipients.1 hc
  have hnil := (h st hmem).2.2.2.2
  rw [hnil] at hio
  exact absurd hio (List.not_mem_nil r)

/-- One event-processing turn keeps a clean connection clean (provided the
event is not a valid join by that connection) and delivers it nothing but
direct `error` events. -/
theorem cleanConn_step (c : ConnId) (s : ServerState) (e : Event)
    (hclean : ∀ st : ConnState, (c, st) ∈ s.conns → cleanSt st)
    (hok : ∀ rj un, e = Event.join c rj un → validStr rj = false ∨ validStr un = false) :
    (∀ st : ConnState, (c, st) ∈ (step s e).1.conns → cleanSt st) ∧
    (∀ m : Msg, (c, m) ∈ (step s e).2 → ∃ t, m = Msg.error t) := by
  by_cases hdc : eventConn e = c
  case neg =>
    constructor
    · intro st hst
      exact hclean st (step_conns_other s e c st (fun hh => hdc hh.symm) hst)
    · intro m hm
      rcases step_delivery_targets s e c m hm with h1 | ⟨r, st, hmem, hco, hio⟩
      · exact absurd h1.symm hdc
      · have hnil := (hclean st hmem).2.2.2.2
        rw [hnil] at hio
        exact absurd hio (List.not_mem_nil r)
  case pos =>
    cases e with
    | connect d =>
      have hd : c = d := hdc.symm
      subst hd
      constructor
      · intro st hst
        rcases mem_setConn hst with hin | heq
        · exact hclean st hin
        · have hst2 : st = initConn := congrArg Prod.snd heq
          rw [hst2]
          exact ⟨rfl, rfl, rfl, rfl, rfl⟩
      · intro m hm
        cases hm
    | join d a b =>
      have hd : c = d := hdc.symm
      subst hd
      have hbad := hok a b rfl
      cases hca : alookup s.conns c with
      | none =>
        constructor
        · intro st hst
          have hst' : (c, st) ∈ (handleJoin s c a b).1.conns := hst
          rw [handleJoin_eq_none s c a b hca] at hst'
          exact hclean st hst'
        · intro m hm
          have hm' : (c, m) ∈ (handleJoin s c a b).2 := hm
          rw [handleJoin_eq_none s c a b hca] at hm'
          cases hm'
      | some std =>
        cases a with
        | str rid =>
          cases hr : trimNonempty rid with
          | false =>
            constructor
            · intro st hst
              have hst' : (c, st) ∈ (handleJoin s c (JVal.str rid) b).1.conns := hst
              rw [handleJoin_eq_some s c _ b std hca] at hst'
              simp only [hr, Bool.not_false, if_true] at hst'
              exact hclean st hst'
            · intro m hm
              have hm' : (c, m) ∈ (handleJoin s c (JVal.str rid) b).2 := hm
              rw [handleJoin_eq_some s c _ b std hca] at hm'
              simp only [hr, Bool.not_false, if_true] at hm'
              obtain heq := List.mem_singleton.1 hm'
              exact ⟨"Invalid or missing roomId in join", congrArg Prod.snd heq⟩
          | true =>
            have hbv : validStr b = false := by
              rcases hbad with hb | hb
              · rw [validStr, hr] at hb
                exact Bool.noConfusion hb
              · exact hb
            cases b with
            | str uname =>
              have hu : trimNonempty uname = false := by rwa [validStr] at hbv
              constructor
              · intro st hst
                have hst' : (c, st) ∈
                    (handleJoin s c (JVal.str rid) (JVal.str uname)).1.conns := hst
                rw [handleJoin_eq_some s c _ _ std hca] at hst'
                simp only [hr, hu, Bool.not_true, Bool.not_false, Bool.false_eq_true,
                  if_false, if_true] at hst'
                exact hclean st hst'
              · intro m hm
                have hm' : (c, m) ∈
                    (handleJoin s c (JVal.str rid) (JVal.str uname)).2 := hm
                rw [handleJoin_eq_some s c _ _ std hca] at hm'
                simp only [hr, hu, Bool.not_true, Bool.not_false, Bool.false_eq_true,
                  if_false, if_true] at hm'
                obtain heq := List.mem_singleton.1 hm'
                exact ⟨"Invalid or missing userName in join", congrArg Prod.snd heq⟩
            | undef =>
              constructor
              · intro st hst
                have hst' : (c, st) ∈
                    (handleJoin s c (JVal.str rid) JVal.undef).1.conns := hst
                rw [handleJoin_eq_some s c _ _ std hca] at hst'
                simp only [hr, Bool.not_true, Bool.false_eq_true, if_false] at hst'
                exact hclean st hst'
              · intro m hm
                have hm' : (c, m) ∈ (handleJoin s c (JVal.str rid) JVal.undef).2 := hm
                rw [handleJoin_eq_some s c _ _ std hca] at hm'
                simp only [hr, Bool.not_true, Bool.false_eq_true, if_false] at hm'
                obtain heq := List.mem_singleton.1 hm'
                exact ⟨"Invalid or missing userName in join", congrArg Prod.snd heq⟩
            | other =>
              constructor
              · intro st hst
                have hst' : (c, st) ∈
                    (handleJoin s c (JVal.str rid) JVal.other).1.conns := hst
                rw [handleJoin_eq_some s c _ _ std hca] at hst'
                simp only [hr, Bool.not_true, Bool.false_eq_true, if_false] at hst'
                exact hclean st hst'
              · intro m hm
                have hm' : (c, m) ∈ (handleJoin s c (JVal.str rid) JVal.other).2 := hm
                rw [handleJoin_eq_some s c _ _ std hca] at hm'
                simp only [hr, Bool.not_true, Bool.false_eq_true, if_false] at hm'
                obtain heq := List.mem_singleton.1 hm'
                exact ⟨"Invalid or missing userName in join", congrArg Prod.snd heq⟩
        | undef =>
          constructor
          · intro st hst
            have hst' : (c, st) ∈ (handleJoin s c JVal.undef b).1.conns := hst
            rw [handleJoin_eq_some s c _ b std hca] at hst'
            exact hclean st hst'
          · intro m hm
            have hm' : (c, m) ∈ (handleJoin s c JVal.undef b).2 := hm
            rw [handleJoin_eq_some s c _ b std hca] at hm'
            obtain heq := List.mem_singleton.1 hm'
            exact ⟨"Invalid or missing roomId in join", congrArg Prod.snd heq⟩
        | other =>
          constructor
          · intro st hst
            have hst' : (c, st) ∈ (handleJoin s c JVal.other b).1.conns := hst
            rw [handleJoin_eq_some s c _ b std hca] at hst'
            exact hclean st hst'
          · intro m hm
            have hm' : (c, m) ∈ (handleJoin s c JVal.other b).2 := hm
            rw [handleJoin_eq_some s c _ b std hca] at hm'
            obtain heq := List.mem_singleton.1 hm'
            exact ⟨"Invalid or missing roomId in join", congrArg Prod.snd heq⟩
    | leaveRoom d =>
      have hd : c = d := hdc.symm
      subst hd
      cases hca : alookup s.conns c with
      | none =>
        constructor
        · intro st hst
          have hst' : (c, st) ∈ (handleLeaveRoom s c).1.conns := hst
          rw [handleLeaveRoom_eq_none s c hca] at hst'
          exact hclean st hst'
        · intro m hm
          have hm' : (c, m) ∈ (handleLeaveRoom s c).2 := hm
          rw [handleLeaveRoom_eq_none s c hca] at hm'
          cases hm'
      | some std =>
        have hcr0 := (hclean std (mem_of_alookup_eq hca)).1
        constructor
        · intro st hst
          have hst' : (c, st) ∈ (handleLeaveRoom s c).1.conns := hst
          rw [handleLeaveRoom_eq_some s c std hca] at hst'
          simp only [hcr0, truthy, Bool.false_and, Bool.false_eq_true, if_false]
            at hst'
          refine cleanConn_updateConn_self hclean ?_ st hst'
          exact fun cs hcs => ⟨rfl, rfl, hcs.2.2.1, hcs.2.2.2.1, hcs.2.2.2.2⟩
        · intro m hm
          have hm' : (c, m) ∈ (handleLeaveRoom s c).2 := hm
          rw [handleLeaveRoom_eq_some s c std hca] at hm'
          simp only [hcr0, truthy, Bool.false_and, Bool.false_eq_true, if_false] at hm'
          cases hm'
    | codeChange d a b =>
      have hd : c = d := hdc.symm
      subst hd
      cases hca : alookup s.conns c with
      | none =>
        constructor
        · intro st hst
          have hst' : (c, st) ∈ (handleCodeChange s c a b).1.conns := hst
          rw [handleCodeChange_eq_none s c a b hca] at hst'
          exact hclean st hst'
        · intro m hm
          have hm' : (c, m) ∈ (handleCodeChange s c a b).2 := hm
          rw [handleCodeChange_eq_none s c a b hca] at hm'
          cases hm'
      | some std =>
        have hcr0 := (hclean std (mem_of_alookup_eq hca)).1
        have hnostep : handleCodeChange s c a b = (s, []) := by
          rw [handleCodeChange_eq_some s c a b std hca]
          cases a with
          | str r =>
            cases he : strEmpty r with
            | true => simp only [he, if_true]
            | false =>
              cases b with
              | str cd =>
                have hne : ¬(std.currentRoom = some r) := by
                  rw [hcr0]
                  exact fun hco => Option.noConfusion hco
                simp only [he, Bool.false_eq_true, if_false, hne]
              | undef => simp only [he, Bool.false_eq_true, if_false]
              | other => simp only [he, Bool.false_eq_true, if_false]
          | undef => rfl
          | other => rfl
        constructor
        · intro st hst
          have hst' : (c, st) ∈ (handleCodeChange s c a b).1.conns := hst
          rw [hnostep] at hst'
          exact hclean st hst'
        · intro m hm
          have hm' : (c, m) ∈ (handleCodeChange s c a b).2 := hm
          rw [hnostep] at hm'
          cases hm'
    | typing d a b =>
      have hd : c = d := hdc.symm
      subst hd
      constructor
      · intro st hst
        rw [show (step s (Event.typing c a b)).1 = s from handleTyping_fst s c a b]
          at hst
        exact hclean st hst
      · intro m hm
        have hm' : (c, m) ∈ (handleTyping s c a b).2 := hm
        cases hca : alookup s.conns c with
        | none =>
          rw [handleTyping_eq_none s c a b hca] at hm'
          cases hm'
        | some std =>
          rw [handleTyping_eq_some s c a b std hca] at hm'
          cases a with
          | str r => exact absurd rfl (mem_emitToRoomExcept.1 hm').2.1
          | undef => cases hm'
          | other => cases hm'
    | languageChange d a b =>
      have hd : c = d := hdc.symm
      subst hd
      constructor
      · intro st hst
        rw [show (step s (Event.languageChange c a b)).1 = s from
          handleLanguageChange_fst s c a b] at hst
        exact hclean st hst
      · intro m hm
        have hm' : (c, m) ∈ (handleLanguageChange s c a b).2 := hm
        cases hca : alookup s.conns c with
        | none =>
          rw [handleLanguageChange_eq_none s c a b hca] at hm'
          cases hm'
        | some std =>
          rw [handleLanguageChange_eq_some s c a b std hca] at hm'
          cases a with
          | str r =>
            cases b with
            | str lg =>
              exact absurd (mem_emitToRoom.1 hm').1 (cleanConn_not_recipient hclean r)
            | undef => cases hm'
            | other => cases hm'
          | undef => cases hm'
          | other => cases hm'
    | timerFire d =>
      have hd : c = d := hdc.symm
      subst hd
      cases hca : alookup s.conns c with
      | none =>
        constructor
        · intro st hst
          have hst' : (c, st) ∈ (handleTimerFire s c).1.conns := hst
          rw [handleTimerFire_eq_none s c hca] at hst'
          exact hclean st hst'
        · intro m hm
          have hm' : (c, m) ∈ (handleTimerFire s c).2 := hm
          rw [handleTimerFire_eq_none s c hca] at hm'
          cases hm'
      | some std =>
        have hdt := (hclean std (mem_of_alookup_eq hca)).2.2.2.1
        have hnostep : handleTimerFire s c = (s, []) := by
          rw [handleTimerFire_eq_some s c std hca, hdt]
        constructor
        · intro st hst
          have hst' : (c, st) ∈ (handleTimerFire s c).1.conns := hst
          rw [hnostep] at hst'
          exact hclean st hst'
        · intro m hm
          have hm' : (c, m) ∈ (handleTimerFire s c).2 := hm
          rw [hnostep] at hm'
          cases hm'
    | disconnect d =>
      have hd : c = d := hdc.symm
      subst hd
      cases hca : alookup s.conns c with
      | none =>
        constructor
        · intro st hst
          have hst' : (c, st) ∈ (handleDisconnect s c).1.conns := hst
          rw [handleDisconnect_eq_none s c hca] at hst'
          exact hclean st hst'
        · intro m hm
          have hm' : (c, m) ∈ (handleDisconnect s c).2 := hm
          rw [handleDisconnect_eq_none s c hca] at hm'
          cases hm'
      | some std =>
        have hcln := hclean std (mem_of_alookup_eq hca)
        have hcr0 := hcln.1
        have hdt := hcln.2.2.2.1
        constructor
        · intro st hst
          have hst' : (c, st) ∈ (handleDisconnect s c).1.conns := hst
          rw [handleDisconnect_eq_some s c std hca] at hst'
          simp only [hcr0, truthy, Bool.false_and, Bool.false_eq_true, if_false, hdt,
            Option.isSome_none] at hst'
          refine cleanConn_updateConn_self hclean ?_ st hst'
          exact fun cs hcs => ⟨hcs.1, hcs.2.1, hcs.2.2.1, hcs.2.2.2.1, rfl⟩
        · intro m hm
          have hm' : (c, m) ∈ (handleDisconnect s c).2 := hm
          rw [handleDisconnect_eq_some s c std hca] at hm'
          simp only [hcr0, truthy, Bool.false_and, Bool.false_eq_true, if_false] at hm'
          cases hm'


/-- Whether every join event from connection `c` in the list carries an
invalid payload (i.e. `c` never sends a valid join). -/
def okJoins (c : ConnId) (es : List Event) : Bool :=
  es.all (fun e => match e with
    | Event.join d rj un => if d = c then !validStr rj || !validStr un else true
    | _ => true)

theorem okJoins_head {c : ConnId} {e : Event} {t : List Event}
    (h : okJoins c (e :: t) = true) :
    (∀ rj un, e = Event.join c rj un → validStr rj = false ∨ validStr un = false) ∧
    okJoins c t = true := by
  rw [okJoins, List.all_cons, Bool.and_eq_true] at h
  refine ⟨?_, h.2⟩
  intro rj un he
  subst he
  have h1 := h.1
  simp only [if_pos rfl] at h1
  cases hrj : validStr rj with
  | false => exact Or.inl rfl
  | true =>
    cases hun : validStr un with
    | false => exact Or.inr rfl
    | true =>
      rw [hrj, hun] at h1
      exact absurd h1 (by decide)

theorem cleanConn_run (c : ConnId) (es : List Event) :
    ∀ s : ServerState, (∀ st : ConnState, (c, st) ∈ s.conns → cleanSt st) →
      okJoins c es = true →
      (∀ st : ConnState, (c, st) ∈ (run s es).1.conns → cleanSt st) ∧
      (∀ m : Msg, (c, m) ∈ (run s es).2 → ∃ t, m = Msg.error t) := by
  induction es with
  | nil =>
    intro s hclean _
    exact ⟨hclean, fun m hm => absurd hm (List.not_mem_nil _)⟩
  | cons e t ih =>
    intro s hclean hok
    obtain ⟨hoke, hokt⟩ := okJoins_head hok
    obtain ⟨hc1, ho1⟩ := cleanConn_step c s e hclean hoke
    obtain ⟨hc2, ho2⟩ := ih (step s e).1 hc1 hokt
    refine ⟨hc2, ?_⟩
    intro m hm
    have hm' : (c, m) ∈ (step s e).2 ++ (run (step s e).1 t).2 := hm
    rcases List.mem_append.1 hm' with h1 | h2
    · exact ho1 m h1
    · exact ho2 m h2

/-- C5 counterexample: a connection that never sent any join can still cause
a broadcast to be delivered into a room — its `typing` event is relayed into
the named room with no membership check at all. -/
theorem never_joined_typing_reaches_room :
    (0, Msg.userTyping (JVal.str "Eve")) ∈
      (run initState [Event.connect 0, Event.connect 1,
        Event.join 0 (JVal.str "R") (JVal.str "Alice"),
        Event.typing 1 (JVal.str "R") (JVal.str "Eve")]).2 := by decide

/-- C5 amended: a connection that never sends a valid join acquires no
server-side state (all per-connection fields stay null and it is in no
socket.io room), receives nothing but direct `error` replies (never a room
broadcast), and its `codeChange` events are dropped without any effect; but
its `typing` and `languageChange` events ARE relayed into the room named in
the payload, with no membership check. -/
theorem never_joined_conn_isolated (c : ConnId) (es : List Event)
    (hok : okJoins c es = true) :
    (∀ st : ConnState, (c, st) ∈ (run initState es).1.conns → cleanSt st) ∧
    (∀ m : Msg, (c, m) ∈ (run initState es).2 → ∃ t, m = Msg.error t) ∧
    (∀ a b : JVal, step (run initState es).1 (Event.codeChange c a b) =
      ((run initState es).1, [])) ∧
    (∀ (s : ServerState) (st : ConnState) (r : String) (un : JVal),
      alookup s.conns c = some st →
      (step s (Event.typing c (JVal.str r) un)).2 =
        emitToRoomExcept s.conns r c (Msg.userTyping un)) ∧
    (∀ (s : ServerState) (st : ConnState) (r lg : String),
      alookup s.conns c = some st →
      (step s (Event.languageChange c (JVal.str r) (JVal.str lg))).2 =
        emitToRoom s.conns r (Msg.languageUpdate lg)) := by
  obtain ⟨hc, ho⟩ := cleanConn_run c es initState
    (fun st hst => absurd hst (List.not_mem_nil _)) hok
  refine ⟨hc, ho, ?_, ?_, ?_⟩
  · intro a b
    show handleCodeChange (run initState es).1 c a b = _
    cases hca : alookup (run initState es).1.conns c with
    | none => exact handleCodeChange_eq_none _ c a b hca
    | some std =>
      have hcr0 := (hc std (mem_of_alookup_eq hca)).1
      rw [handleCodeChange_eq_some _ c a b std hca]
      cases a with
      | str r =>
        cases he : strEmpty r with
        | true => simp only [he, if_true]
        | false =>
          cases b with
          | str cd =>
            have hne2 : ¬(std.currentRoom = some r) := by
              rw [hcr0]
              exact fun hx => Option.noConfusion hx
            simp only [he, Bool.false_eq_true, if_false, hne2]
          | undef => simp only [he, Bool.false_eq_true, if_false]
          | other => simp only [he, Bool.false_eq_true, if_false]
      | undef => rfl
      | other => rfl
  · intro s st r un hst
    show (handleTyping s c (JVal.str r) un).2 = _
    rw [handleTyping_eq_some s c _ un st hst]
  · intro s st r lg hst
    show (handleLanguageChange s c (JVal.str r) (JVal.str lg)).2 = _
    rw [handleLanguageChange_eq_some s c _ _ st hst]

/-- Witness for the amended C5: after a trace in which connection 1 types,
edits and sends an invalid join (but never a valid one), its state is still
completely clean. -/
theorem never_joined_conn_isolated_witness :
    cleanSt
      { currentRoom := none
        userName := none
        pendingCode := none
        debounceTimer := none
        connected := true
        ioRooms := [] } :=
  (never_joined_conn_isolated 1 [Event.connect 0, Event.connect 1,
      Event.join 0 (JVal.str "R") (JVal.str "Alice"),
      Event.typing 1 (JVal.str "R") (JVal.str "Eve"),
      Event.codeChange 1 (JVal.str "R") (JVal.str "x"),
      Event.join 1 (JVal.str "") (JVal.str "Eve")] (by decide)).1
    { currentRoom := none
      userName := none
      pendingCode := none
      debounceTimer := none
      connected := true
      ioRooms := [] } (by decide)

end RTCE
